import Mathlib

/-!
Verification of the content-analysis pipeline (snapshot/master merge engine,
ignore overlay, channel-annotation store, identity normalizer, UGC reporting)
against its natural-language specification.

The pandas `DataFrame`s of the source are shallowly embedded as lists of
association rows: a cell is `Option Val` (where `none` models a pandas
null/NA), a row is an ordered association list from column name to cell, and
a `DF` carries the column order plus the row list.  CSV-backed stores are
modelled as `Option DF` (`none` = the file does not exist yet).
-/

/-- A scalar cell value: a string, a boolean, or an integer. -/
inductive Val where
  | str (s : String)
  | bool (b : Bool)
  | int (n : Int)
deriving DecidableEq, Repr

/-- A cell of a DataFrame; `none` models a pandas missing value (NaN/NA). -/
abbrev Cell := Option Val

/-- A row: an ordered association list from column name to cell value. -/
abbrev Row := List (String × Cell)

/-- A DataFrame: a column order plus a list of rows. -/
structure DF where
  cols : List String
  rows : List Row
deriving DecidableEq, Repr

/-- Look up the cell stored for column `c` in row `r`
(`none` both for a stored NA and for an absent column, matching how the
scripts treat the two interchangeably after schema alignment). -/
def getCell : Row → String → Cell
  | [], _ => none
  | (c, v) :: r, c' => if c = c' then v else getCell r c'

/-- Column assignment `df[c] = v` at row level: overwrite the column in place
if present, else append it at the end (pandas column-assignment order). -/
def setCell (r : Row) (c : String) (v : Cell) : Row :=
  if r.any (fun p => decide (p.1 = c)) then
    r.map (fun p => if p.1 = c then (c, v) else p)
  else r ++ [(c, v)]

/-- Remove a column from a row (used to model `set_index`, which turns the
key column into the index). -/
def eraseCol (key : String) (r : Row) : Row :=
  r.filter (fun p => !(decide (p.1 = key)))

/-- The key cell of a row. -/
def keyCell (key : String) (r : Row) : Cell := getCell r key

/-- Python `str()` on a scalar value. -/
def valToStr : Val → String
  | .str s => s
  | .bool b => cond b "True" "False"
  | .int n => toString n

/-- pandas `Series.astype(str)` on one cell: a missing value stringifies to
`"nan"`. -/
def cellToStr : Cell → String
  | some v => valToStr v
  | none => "nan"

/-- Python `bool()` on a scalar value. -/
def valPyBool : Val → Bool
  | .str s => !(decide (s = ""))
  | .bool b => b
  | .int n => !(decide (n = 0))

/-- `Series.fillna(False).astype(bool)` on one cell: missing becomes `False`,
anything else goes through Python truthiness. -/
def cellPyBool : Cell → Bool
  | none => false
  | some v => valPyBool v

/-- `Series.apply(bool)` on one cell: note `bool(float("nan"))` is `True`,
unlike the `fillna(False)` composition. -/
def cellPyBoolNaN : Cell → Bool
  | none => true
  | some v => valPyBool v

/-- Code-point comparison of strings as char lists (Python `<=` on `str`). -/
def charListLe : List Char → List Char → Bool
  | [], _ => true
  | _ :: _, [] => false
  | a :: as, b :: bs =>
    if a.toNat < b.toNat then true
    else if a.toNat = b.toNat then charListLe as bs
    else false

/-- Python string `<=` (lexicographic by code point). -/
def strLe (a b : String) : Bool := charListLe a.data b.data

/-- Insert into a list sorted by the string key `f`, after all strictly
smaller keys and before all others (stable insertion). -/
def insertSortedBy {α : Type} (f : α → String) (x : α) : List α → List α
  | [] => [x]
  | y :: ys => if strLe (f x) (f y) then x :: y :: ys else y :: insertSortedBy f x ys

/-- Stable ascending sort by a string key (models both Python `sorted` and
`DataFrame.sort_values` on a string column). -/
def sortOn {α : Type} (f : α → String) (l : List α) : List α :=
  l.foldr (insertSortedBy f) []

/-- Keep the first occurrence of each element (Python `set` construction /
`pandas.unique`, order-normalized). -/
def dedupList {α : Type} [DecidableEq α] : List α → List α
  | [] => []
  | x :: xs => x :: (dedupList xs).filter (fun y => !(decide (y = x)))

/-- `drop_duplicates(keep="last")` on a computed key: keep a row exactly when
no later row has the same key (pandas treats two NaN keys as duplicates,
which `Option` equality reproduces). -/
def dedupeKeepLast {α κ : Type} [DecidableEq κ] (keyf : α → κ) : List α → List α
  | [] => []
  | r :: rs =>
    if rs.any (fun r2 => decide (keyf r2 = keyf r)) then dedupeKeepLast keyf rs
    else r :: dedupeKeepLast keyf rs

/-- `drop_duplicates(keep="first")` on a computed key: keep a row exactly when
no earlier row has the same key. -/
def dedupeKeepFirst {α κ : Type} [DecidableEq κ] (keyf : α → κ) : List α → List α
  | [] => []
  | r :: rs => r :: (dedupeKeepFirst keyf rs).filter (fun r2 => !(decide (keyf r2 = keyf r)))

/-- Union of two column lists keeping the first list's order then appending
the second list's new columns (pandas `concat` column alignment). -/
def unionCols (a b : List String) : List String :=
  a ++ b.filter (fun c => !(decide (c ∈ a)))

/-- Reindex a row to a given column list: `df[all_cols]` after adding the
missing columns with NA (`align_columns` acts on rows this way). -/
def alignRow (cols : List String) (r : Row) : Row :=
  cols.map (fun c => (c, getCell r c))

/-! ## Merge Engine (`scripts/merge_shows_csvs.py`) -/

/-- `align_columns`: both DataFrames get the sorted union of the two column
sets; columns absent from one side are added with NA. -/
def align_columns (master_df snapshot_df : DF) : DF × DF :=
  let all_cols := sortOn id (dedupList (master_df.cols ++ snapshot_df.cols))
  (⟨all_cols, master_df.rows.map (alignRow all_cols)⟩,
   ⟨all_cols, snapshot_df.rows.map (alignRow all_cols)⟩)

/-- `dedupe_on_key`: drop duplicate key values keeping the last row for each
key.  (The `ValueError` branch for a missing key column is unreachable on the
merge path, which only calls this after `align_columns` has put the key in
both column sets; it is therefore modelled total.) -/
def dedupe_on_key (key : String) (df : DF) : DF :=
  ⟨df.cols, dedupeKeepLast (keyCell key) df.rows⟩

/-- `snapshot_df.dropna(subset=[key])`: drop snapshot rows without a key. -/
def dropNullKey (key : String) (df : DF) : DF :=
  ⟨df.cols, df.rows.filter (fun r => (getCell r key).isSome)⟩

/-- The master rows after the preparatory stages of the merge (null-key drop
does not apply to the master side): schema alignment, then key dedup. -/
def preppedMaster (key : String) (master_df snapshot_df : DF) : List Row :=
  (dedupe_on_key key (align_columns master_df (dropNullKey key snapshot_df)).1).rows

/-- The snapshot rows after the preparatory stages of the merge: null-key
drop, schema alignment, then key dedup. -/
def preppedSnapshot (key : String) (master_df snapshot_df : DF) : List Row :=
  (dedupe_on_key key (align_columns master_df (dropNullKey key snapshot_df)).2).rows

/-- One row of `updated_master.update(snapshot_df)`: for every column of the
master row, a non-NA snapshot value overwrites and an NA snapshot value
leaves the master value in place. -/
def updateRow (m s : Row) : Row :=
  m.map (fun p => (p.1,
    match getCell s p.1 with
    | some w => some w
    | none => p.2))

/-- `set_index(key)` at row level: each row becomes its key cell paired with
its remaining columns. -/
def setIndexRows (key : String) (rows : List Row) : List (Cell × Row) :=
  rows.map (fun r => (keyCell key r, eraseCol key r))

/-- `updated_master.update(snapshot_df)`: every master row whose key appears
in the snapshot index is overwritten cell-wise by the snapshot's non-NA
values. -/
def updateWithSnapshot (mk sk : List (Cell × Row)) : List (Cell × Row) :=
  mk.map (fun m =>
    match sk.find? (fun s => decide (s.1 = m.1)) with
    | some s => (m.1, updateRow m.2 s.2)
    | none => m)

/-- `new_only`: the snapshot rows whose key is not in the master index. -/
def newOnlyRows (mk sk : List (Cell × Row)) : List (Cell × Row) :=
  sk.filter (fun s => !(mk.any (fun m => decide (m.1 = s.1))))

/-- The three provenance stamps of the merge, applied to one indexed row:
`present_in_latest_snapshot` = key ∈ snapshot index; a fresh NA
`last_seen_snapshot_date` column when the table does not have one yet
(`lssdMissing`); `last_seen_snapshot_date = today` for present rows; and
`last_merged_on = today` for every row. -/
def stampOne (today : String) (snapKeys : List Cell) (lssdMissing : Bool)
    (p : Cell × Row) : Cell × Row :=
  let r := setCell p.2 "present_in_latest_snapshot"
    (some (Val.bool (snapKeys.any (fun k2 => decide (k2 = p.1)))))
  let r := if lssdMissing then setCell r "last_seen_snapshot_date" none else r
  let r := if getCell r "present_in_latest_snapshot" = some (Val.bool true) then
    setCell r "last_seen_snapshot_date" (some (Val.str today)) else r
  (p.1, setCell r "last_merged_on" (some (Val.str today)))

/-- `merged.reset_index().rename(columns={"index": key})` at row level: the
index value comes back as a first column named `key`, and any pre-existing
column literally named `"index"` is renamed to `key` as well. -/
def resetIndexRow (key : String) (p : Cell × Row) : Row :=
  (key, p.1) :: p.2.map (fun q => if q.1 = "index" then (key, q.2) else q)

/-- The body of `merge_master_with_snapshot` after the key-column checks:
drop null-key snapshot rows, align schemas, dedupe both sides on the key,
set the key as index, overwrite overlapping rows with non-NA snapshot
values, append snapshot-only rows, stamp the provenance columns, then
restore the key as a regular first column. -/
def mergePipeline (key today : String) (master_df snapshot_df : DF) : DF :=
  let snapshot₁ := dropNullKey key snapshot_df
  let aligned := align_columns master_df snapshot₁
  let all_cols := (aligned.1).cols
  let mk := setIndexRows key (dedupe_on_key key aligned.1).rows
  let sk := setIndexRows key (dedupe_on_key key aligned.2).rows
  let mergedK := updateWithSnapshot mk sk ++ newOnlyRows mk sk
  let snapKeys := sk.map Prod.fst
  let colsNoKey := all_cols.erase key
  let cols₁ := if "present_in_latest_snapshot" ∈ colsNoKey then colsNoKey
    else colsNoKey ++ ["present_in_latest_snapshot"]
  let lssdMissing : Bool := decide ("last_seen_snapshot_date" ∉ cols₁)
  let mergedK := mergedK.map (stampOne today snapKeys lssdMissing)
  let cols₂ := if "last_seen_snapshot_date" ∈ cols₁ then cols₁
    else cols₁ ++ ["last_seen_snapshot_date"]
  let cols₃ := if "last_merged_on" ∈ cols₂ then cols₂ else cols₂ ++ ["last_merged_on"]
  let outRows := mergedK.map (resetIndexRow key)
  let colsR := key :: cols₃.map (fun c => if c = "index" then key else c)
  let colsOut := if key ∈ colsR then key :: colsR.erase key else colsR
  ⟨colsOut, outRows⟩

/-- The aligned column set of a merge (sorted union of both column sets). -/
def mergeAllCols (key : String) (master_df snapshot_df : DF) : List String :=
  (align_columns master_df (dropNullKey key snapshot_df)).1.cols

/-- Whether the merge has to create a fresh `last_seen_snapshot_date` column
(it is absent from the aligned columns, the key excluded, even after the
`present_in_latest_snapshot` assignment). -/
def mergeLssdMissing (key : String) (master_df snapshot_df : DF) : Bool :=
  let colsNoKey := (mergeAllCols key master_df snapshot_df).erase key
  let cols₁ := if "present_in_latest_snapshot" ∈ colsNoKey then colsNoKey
    else colsNoKey ++ ["present_in_latest_snapshot"]
  decide ("last_seen_snapshot_date" ∉ cols₁)

/-- `merge_master_with_snapshot` (file I/O elided: the function takes the two
loaded DataFrames and returns the merged DataFrame that the script writes
back; `today` is `date.today().isoformat()`). -/
def merge_master_with_snapshot (key today : String) (master_df snapshot_df : DF) :
    Except String DF :=
  if key ∉ master_df.cols then .error "Key column is missing from master"
  else if key ∉ snapshot_df.cols then .error "Key column is missing from snapshot"
  else .ok (mergePipeline key today master_df snapshot_df)

/-! ## Ignore Overlay (`scripts/videos_ignore.py`) -/

/-- The ignore list's column schema. -/
def ignoreCols : List String :=
  ["slug", "video_id", "channel_id", "title", "reason", "first_marked_at"]

/-- `df[col] = default` for each required column that is absent. -/
def ensureCols (defaults : List (String × Cell)) (df : DF) : DF :=
  defaults.foldl (fun df p =>
    if p.1 ∈ df.cols then df
    else ⟨df.cols ++ [p.1], df.rows.map (fun r => r ++ [(p.1, p.2)])⟩) df

/-- `load_ignore_list`: read the global ignore CSV if it exists (ensuring the
required columns, missing ones defaulting to `""`), else an empty frame. -/
def load_ignore_list (st : Option DF) : DF :=
  match st with
  | some df => ensureCols (ignoreCols.map (fun c => (c, some (Val.str "")))) df
  | none => ⟨ignoreCols, []⟩

/-- The key used to deduplicate ignore entries: the `(slug, video_id)` pair. -/
def ignoreKey (r : Row) : Cell × Cell := (getCell r "slug", getCell r "video_id")

/-- The ignore entry built for one submitted row: slug, the row's
`video_id`, optional `channel_id`/`title` (empty string when the submitted
frame lacks the column), the reason, and today's date. -/
def newIgnoreRow (slug : String) (rows_df : DF) (reason today : String) (r : Row) : Row :=
  [("slug", some (Val.str slug)),
   ("video_id", getCell r "video_id"),
   ("channel_id", if "channel_id" ∈ rows_df.cols then getCell r "channel_id"
    else some (Val.str "")),
   ("title", if "title" ∈ rows_df.cols then getCell r "title"
    else some (Val.str "")),
   ("reason", some (Val.str reason)),
   ("first_marked_at", some (Val.str today))]

/-- `append_ignores_for_show`: no-op on an empty `rows_df`; otherwise build
one dated entry per submitted row, concatenate with the existing list,
deduplicate on `(slug, video_id)` keeping the first entry, and persist.
`st` is the state of `videos_ignore.csv` (`none` = file absent); the result
is the state after the call, or the `KeyError` the column access raises. -/
def append_ignores_for_show (st : Option DF) (slug : String) (rows_df : DF)
    (reason today : String) : Except String (Option DF) :=
  if rows_df.rows.isEmpty then .ok st
  else if "video_id" ∈ rows_df.cols then
    let ignore_df := load_ignore_list st
    let new_rows : List Row := rows_df.rows.map (newIgnoreRow slug rows_df reason today)
    let combined := dedupeKeepFirst ignoreKey (ignore_df.rows ++ new_rows)
    .ok (some ⟨unionCols ignore_df.cols ignoreCols, combined⟩)
  else .error "KeyError: video_id"

/-- The stringified video ids ignored for a slug, as the claims describe
them: the non-null `video_id` values of the slug's ignore entries, passed
through `str()`. -/
def ignoredKeyStrs (st : Option DF) (slug : String) : List String :=
  ((load_ignore_list st).rows.filter
    (fun e => decide (getCell e "slug" = some (Val.str slug)))).filterMap
    (fun e => (getCell e "video_id").map valToStr)

/-- `filter_master_for_show`: remove from a master DataFrame every row whose
stringified `video_id` is on the ignore list for the slug; the input comes
back unchanged when the ignore list (or the slug's id set) is empty. -/
def filter_master_for_show (st : Option DF) (slug : String) (master_df : DF) : DF :=
  let ignore_df := load_ignore_list st
  if ignore_df.rows.isEmpty then master_df
  else
    let bad_ids := dedupList
      (((ignore_df.rows.filter
          (fun e => decide (getCell e "slug" = some (Val.str slug)))).filterMap
          (fun e => getCell e "video_id")).map valToStr)
    if bad_ids.isEmpty then master_df
    else ⟨master_df.cols,
      master_df.rows.filter
        (fun r => !(bad_ids.any (fun b => decide (cellToStr (getCell r "video_id") = b))))⟩

/-! ## Channel Annotation Store (`scripts/channel_annotations.py`) -/

/-- The annotation store's column schema. -/
def annCols : List String :=
  ["channel_id", "channel_title", "ugc", "first_marked_at", "last_updated_at"]

/-- `to_bool` from `load_channel_annotations`: booleans pass through, missing
is `False`, and any other scalar is stringified, stripped, lower-cased and
matched against the accepted true/false spellings (anything unrecognized is
`False`). -/
def to_bool (c : Cell) : Bool :=
  match c with
  | some (Val.bool b) => b
  | none => false
  | some v =>
    let s := (valToStr v).trim.toLower
    decide (s = "true" ∨ s = "1" ∨ s = "yes" ∨ s = "y")

/-- Rewrite one column of every row through `f` (a whole-column assignment
such as `df[c] = df[c].astype(str)`). -/
def mapCol (c : String) (f : Cell → Cell) (df : DF) : DF :=
  ⟨df.cols, df.rows.map (fun r => setCell r c (f (getCell r c)))⟩

/-- `load_channel_annotations`: read the annotations CSV if it exists,
ensure the required columns (with `""`/`False` defaults), normalize
`channel_id` to string and coerce `ugc` to bool; a missing file yields an
empty frame. -/
def load_channel_annotations (st : Option DF) : DF :=
  match st with
  | some df =>
    let df := ensureCols
      [("channel_id", some (Val.str "")), ("channel_title", some (Val.str "")),
       ("ugc", some (Val.bool false)), ("first_marked_at", some (Val.str "")),
       ("last_updated_at", some (Val.str ""))] df
    let df := mapCol "channel_id" (fun c => some (Val.str (cellToStr c))) df
    mapCol "ugc" (fun c => some (Val.bool (to_bool c))) df
  | none => ⟨annCols, []⟩

/-- The annotation row built for one submitted row: string-normalized
`channel_id`, the row's `channel_title`, `bool()`-coerced `ugc`, and both
date stamps set to today. -/
def newAnnRow (today : String) (r : Row) : Row :=
  [("channel_id", some (Val.str (cellToStr (getCell r "channel_id")))),
   ("channel_title", getCell r "channel_title"),
   ("ugc", some (Val.bool (cellPyBoolNaN (getCell r "ugc")))),
   ("last_updated_at", some (Val.str today)),
   ("first_marked_at", some (Val.str today))]

/-- The sort key of the upsert: the stringified `last_updated_at` cell. -/
def luaKey (r : Row) : String := cellToStr (getCell r "last_updated_at")

/-- The dedup key of the upsert: the raw `channel_id` cell. -/
def cidKey (r : Row) : Cell := getCell r "channel_id"

/-- The contract of `combined.sort_values("last_updated_at")` with the pandas
default `kind='quicksort'`: pandas documents quicksort as NOT stable, so the
only guarantee is that the output is some permutation of the input that is
non-decreasing in the key.  `sortedByOf f l l'` holds of every admissible
output `l'`; the relative order of rows with equal keys is unspecified. -/
def sortedByOf {α : Type} (f : α → String) (l l' : List α) : Prop :=
  l.Perm l' ∧ l'.Pairwise (fun a b => strLe (f a) (f b) = true)

/-- `upsert_channel_annotations`, as a relation between the prior state of
`channel_annotations.csv` and an admissible result: no-op on an empty
`rows_df`; `KeyError` when a required column is missing; otherwise stamp
every submitted row with `last_updated_at = first_marked_at = today`,
concatenate with the existing store, sort by `last_updated_at` (any outcome
of the unstable default sort), deduplicate on `channel_id` keeping the last
occurrence, and persist. -/
def upsert_channel_annotations (st : Option DF) (rows_df : DF) (today : String)
    (res : Except String (Option DF)) : Prop :=
  if rows_df.rows.isEmpty then res = .ok st
  else if "channel_id" ∈ rows_df.cols ∧ "channel_title" ∈ rows_df.cols ∧
      "ugc" ∈ rows_df.cols then
    ∃ sorted, sortedByOf luaKey
        ((load_channel_annotations st).rows ++ rows_df.rows.map (newAnnRow today)) sorted ∧
      res = .ok (some ⟨unionCols (load_channel_annotations st).cols annCols,
        dedupeKeepLast cidKey sorted⟩)
  else res = .error "KeyError: channel_id, channel_title, ugc"

/-- One admissible execution of the upsert, resolving the unspecified order
of equal-key rows with the stable `sortOn` (an insertion-sorted output is in
particular a sorted permutation).  Used to build concrete instances. -/
def upsertStableRun (st : Option DF) (rows_df : DF) (today : String) :
    Except String (Option DF) :=
  if rows_df.rows.isEmpty then .ok st
  else if "channel_id" ∈ rows_df.cols ∧ "channel_title" ∈ rows_df.cols ∧
      "ugc" ∈ rows_df.cols then
    .ok (some ⟨unionCols (load_channel_annotations st).cols annCols,
      dedupeKeepLast cidKey (sortOn luaKey
        ((load_channel_annotations st).rows ++ rows_df.rows.map (newAnnRow today)))⟩)
  else .error "KeyError: channel_id, channel_title, ugc"

/-! ## Identity Normalizer (`library.py`) -/

/-- `str.strip()` on a char list (leading and trailing whitespace removed). -/
def stripChars (cs : List Char) : List Char :=
  ((cs.dropWhile Char.isWhitespace).reverse.dropWhile Char.isWhitespace).reverse

/-- The character filter of `slugify_show_name`: keep alphanumerics (modelled
at ASCII granularity for Python's `str.isalnum`) and underscores. -/
def slugChar (ch : Char) : Bool := ch.isAlphanum || decide (ch = '_')

/-- `slugify_show_name` on the underlying char list: strip, lower-case, strip
one layer of surrounding double quotes if both present, spaces to
underscores, then drop every character that is not alphanumeric or
underscore. -/
def slugifyChars (raw : List Char) : List Char :=
  let s := (stripChars raw).map Char.toLower
  let s := if s.head? = some '"' ∧ s.getLast? = some '"' then (s.drop 1).dropLast else s
  let s := s.map (fun ch => if ch = ' ' then '_' else ch)
  s.filter slugChar

/-- `slugify_show_name`: normalize a show name into a slug. -/
def slugify_show_name (raw_name : String) : String :=
  ⟨slugifyChars raw_name.data⟩

/-! ## UGC share (`app.py: compute_ugc_from_channels`) -/

/-- The numeric reading of a cell used for view-count sums: integer cells
count, missing values contribute nothing (pandas `sum` skips NaN). -/
def cellInt : Cell → Int
  | some (Val.int n) => n
  | _ => 0

/-- `merged["channel_id"] = merged["channel_id"].astype(str)` on the channel
aggregates. -/
def chanNorm (chan : DF) : List Row :=
  chan.rows.map (fun r =>
    setCell r "channel_id" (some (Val.str (cellToStr (getCell r "channel_id")))))

/-- `channel_annotations[["channel_id", "ugc"]]`: the store projected to its
id and flag columns. -/
def annProj (ann0 : DF) : List Row :=
  ann0.rows.map (fun r =>
    [("channel_id", getCell r "channel_id"), ("ugc", getCell r "ugc")])

/-- The projected store after `drop_duplicates(subset=["channel_id"],
keep="last")` and id string-normalization. -/
def annNorm (ann0 : DF) : List Row :=
  (dedupeKeepLast (fun r => getCell r "channel_id") (annProj ann0)).map
    (fun r => setCell r "channel_id" (some (Val.str (cellToStr (getCell r "channel_id")))))

/-- One row's contribution to `merged.merge(ann, on="channel_id",
how="left")`: every matching annotation row contributes a joined row, and an
unmatched aggregate row survives with a null `ugc`. -/
def leftJoinUgc (ann3 : List Row) (r : Row) : List Row :=
  if (ann3.filter (fun a => decide (getCell a "channel_id" = getCell r "channel_id"))).isEmpty
  then [setCell r "ugc" none]
  else (ann3.filter (fun a => decide (getCell a "channel_id" = getCell r "channel_id"))).map
    (fun a => setCell r "ugc" (getCell a "ugc"))

/-- The joined table with `merged["ugc"].fillna(False).astype(bool)` applied. -/
def joinedRows (chan ann0 : DF) : List Row :=
  ((chanNorm chan).flatMap (leftJoinUgc (annNorm ann0))).map
    (fun r => setCell r "ugc" (some (Val.bool (cellPyBool (getCell r "ugc")))))

/-- The body of `compute_ugc_from_channels` once both frames are present:
`None` for empty frames or missing columns, else
`100 * sum(total_views where ugc) / sum(total_views)` over the left join,
with a `0.0` guard for a non-positive total.  The percentage is modelled
exactly over `ℚ` (the Python value is the same ratio in floating point); the
`debug_df` component of the Python return value is not modelled, and the
join is modelled for aggregate frames without a pre-existing `ugc` column,
which is what `channel_aggregates` produces. -/
def compute_ugc_core (chan ann0 : DF) : Option ℚ :=
  if chan.rows.isEmpty then none
  else if ann0.rows.isEmpty then none
  else if "channel_id" ∈ chan.cols ∧ "channel_id" ∈ ann0.cols ∧ "ugc" ∈ ann0.cols then
    let total_views := ((joinedRows chan ann0).map
      (fun r => cellInt (getCell r "total_views"))).sum
    let ugc_views := (((joinedRows chan ann0).filter
      (fun r => decide (getCell r "ugc" = some (Val.bool true)))).map
      (fun r => cellInt (getCell r "total_views"))).sum
    if total_views ≤ 0 then some 0
    else some ((ugc_views : ℚ) / (total_views : ℚ) * 100)
  else none

/-- `compute_ugc_from_channels`: `None` when either frame is absent,
otherwise the core computation. -/
def compute_ugc_from_channels : Option DF → Option DF → Option ℚ
  | none, _ => none
  | some _, none => none
  | some chan, some ann0 => compute_ugc_core chan ann0

/-! ## Claim-side vocabulary -/

/-- The key values (including a possible null) occurring in a DataFrame's key
column. -/
def keysOfDF (key : String) (df : DF) : Finset Cell :=
  (df.rows.map (keyCell key)).toFinset

/-- The non-null key values occurring in a DataFrame's key column. -/
def nonNullKeysOfDF (key : String) (df : DF) : Finset Cell :=
  ((df.rows.map (keyCell key)).filter Option.isSome).toFinset

/-- The ignore entries stored for a given `(slug, video_id)` pair. -/
def ignoreEntriesFor (df : DF) (slug : String) (v : Cell) : List Row :=
  df.rows.filter (fun r => decide (ignoreKey r = (some (Val.str slug), v)))

/-- The annotation entries stored for a given (string-normalized) channel id. -/
def annEntriesFor (df : DF) (cid : String) : List Row :=
  df.rows.filter (fun r => decide (cellToStr (getCell r "channel_id") = cid))

/-- The UGC flag the claim ascribes to an aggregate row: the flag of the
annotation row whose string-normalized `channel_id` matches (missing or
unmatched meaning non-UGC). -/
def ugcFlagFor (ann0 : DF) (r : Row) : Bool :=
  match ann0.rows.find? (fun a =>
    decide (cellToStr (getCell a "channel_id") = cellToStr (getCell r "channel_id"))) with
  | some a => cellPyBool (getCell a "ugc")
  | none => false

/-- Total views of an aggregate frame, as the claim sums them. -/
def totalViewsOf (chan : DF) : Int :=
  (chan.rows.map (fun r => cellInt (getCell r "total_views"))).sum

/-- Views of the channels flagged UGC, as the claim sums them. -/
def ugcViewsOf (ann0 chan : DF) : Int :=
  ((chan.rows.filter (ugcFlagFor ann0)).map (fun r => cellInt (getCell r "total_views"))).sum

/-- Whether a row has an entry for column `c`. -/
def hasCol (r : Row) (c : String) : Bool := r.any (fun p => decide (p.1 = c))

/-! ## Concrete instances used by the claim witnesses and counterexamples -/

/-- Master of the C1 witness: one video with a non-null title. -/
def wC1Master : DF := ⟨["video_id", "title"],
  [[("video_id", some (Val.str "1")), ("title", some (Val.str "Old"))]]⟩

/-- Snapshot of the C1 witness: the same video with a null title. -/
def wC1Snapshot : DF := ⟨["video_id", "title"],
  [[("video_id", some (Val.str "1")), ("title", none)]]⟩

/-- Master of the C1 counterexample: carries a non-null `last_merged_on`. -/
def cexC1Master : DF := ⟨["video_id", "last_merged_on"],
  [[("video_id", some (Val.str "1")), ("last_merged_on", some (Val.str "2020-01-01"))]]⟩

/-- Snapshot of the C1 counterexample: null `last_merged_on` for the same key. -/
def cexC1Snapshot : DF := ⟨["video_id", "last_merged_on"],
  [[("video_id", some (Val.str "1")), ("last_merged_on", none)]]⟩

/-- Master of the C2 counterexample: a single non-null key. -/
def cexC2Master : DF := ⟨["video_id"], [[("video_id", some (Val.str "a"))]]⟩

/-- Snapshot of the C2 counterexample: a single null-key row (dropped by the
merge, but still a key value of the snapshot record set). -/
def cexC2Snapshot : DF := ⟨["video_id"], [[("video_id", none)]]⟩

/-- Master of the C2 witness (the spec's worked merge example). -/
def wC2Master : DF := ⟨["video_id", "views"],
  [[("video_id", some (Val.str "1")), ("views", some (Val.int 10))],
   [("video_id", some (Val.str "2")), ("views", some (Val.int 20))]]⟩

/-- Snapshot of the C2 witness (the spec's worked merge example). -/
def wC2Snapshot : DF := ⟨["video_id", "views"],
  [[("video_id", some (Val.str "2")), ("views", some (Val.int 25))],
   [("video_id", some (Val.str "3")), ("views", some (Val.int 5))]]⟩

/-- Master of the C3 witness: one row that the snapshot does not mention,
with an older `last_seen_snapshot_date`, and one overlapping row. -/
def wC3Master : DF := ⟨["video_id", "last_seen_snapshot_date"],
  [[("video_id", some (Val.str "1")), ("last_seen_snapshot_date", some (Val.str "2024-01-01"))],
   [("video_id", some (Val.str "2")), ("last_seen_snapshot_date", some (Val.str "2024-01-01"))]]⟩

/-- Snapshot of the C3 witness: mentions only video 2. -/
def wC3Snapshot : DF := ⟨["video_id"], [[("video_id", some (Val.str "2"))]]⟩

/-- Master of the C10 witness: two null-key rows and a keyed row. -/
def wC10Master : DF := ⟨["video_id", "t"],
  [[("video_id", none), ("t", some (Val.str "a"))],
   [("video_id", none), ("t", some (Val.str "b"))],
   [("video_id", some (Val.str "1")), ("t", some (Val.str "c"))]]⟩

/-- Snapshot of the C10 witness: one keyed row and one null-key row. -/
def wC10Snapshot : DF := ⟨["video_id", "t"],
  [[("video_id", some (Val.str "1")), ("t", none)],
   [("video_id", none), ("t", some (Val.str "z"))]]⟩

/-- Submitted rows of the C4 witness's first append call. -/
def c4Rows1 : DF := ⟨["video_id"], [[("video_id", some (Val.str "v1"))]]⟩

/-- Submitted rows of the C4 witness's second append call. -/
def c4Rows2 : DF := ⟨["video_id", "title"],
  [[("video_id", some (Val.str "v1")), ("title", some (Val.str "T"))]]⟩

/-- Store state after the C4 witness's first append call. -/
def c4St1 : Option DF :=
  match append_ignores_for_show none "show" c4Rows1 "r1" "2025-01-01" with
  | .ok st => st
  | .error _ => none

/-- Store state after the C4 witness's second append call. -/
def c4St2 : Option DF :=
  match append_ignores_for_show c4St1 "show" c4Rows2 "r2" "2025-02-02" with
  | .ok st => st
  | .error _ => none

/-- Submitted rows of the C6 witness's first upsert (flagging UGC). -/
def c6Rows1 : DF := ⟨["channel_id", "channel_title", "ugc"],
  [[("channel_id", some (Val.str "c1")), ("channel_title", some (Val.str "T")),
    ("ugc", some (Val.bool true))]]⟩

/-- Submitted rows of the C6 witness's second upsert (clearing UGC). -/
def c6Rows2 : DF := ⟨["channel_id", "channel_title", "ugc"],
  [[("channel_id", some (Val.str "c1")), ("channel_title", some (Val.str "T")),
    ("ugc", some (Val.bool false))]]⟩

/-- Store state after the C6 witness's first upsert (on 2025-01-01).  The
combined list of that call is a singleton, so every admissible sort returns
it unchanged and the result is the same for any execution. -/
def c6St1 : Option DF :=
  match upsertStableRun none c6Rows1 "2025-01-01" with
  | .ok st => st
  | .error _ => none

/-- Store state after the C6 witness's second upsert, on the strictly later
date 2025-01-02 (stable execution). -/
def c6St2 : Option DF :=
  match upsertStableRun c6St1 c6Rows2 "2025-01-02" with
  | .ok st => st
  | .error _ => none

/-- An adversarial but admissible outcome of the C6 counterexample's
equal-date second upsert's sort: the freshly stamped row first, the stored
row last.  Both rows carry `last_updated_at = "2025-01-01"`, so this order is
non-decreasing in the sort key and pandas' unstable quicksort may produce
it. -/
def c6CexSorted : List Row :=
  c6Rows2.rows.map (newAnnRow "2025-01-01") ++ (load_channel_annotations c6St1).rows

/-- Store state after the C6 counterexample's equal-date second upsert under
the adversarial sort order: keep-last dedup now keeps the FIRST call's row. -/
def c6CexSt2 : Option DF :=
  some ⟨unionCols (load_channel_annotations c6St1).cols annCols,
    dedupeKeepLast cidKey c6CexSorted⟩

/-- Channel aggregates of the C8 witness: `c1` with 70 views, `c2` with 30. -/
def c8Chan : DF :=
  ⟨["channel_id", "channel_title", "total_views", "video_count"],
    [[("channel_id", some (Val.str "c1")), ("channel_title", some (Val.str "Alpha")),
      ("total_views", some (Val.int 70)), ("video_count", some (Val.int 2))],
     [("channel_id", some (Val.str "c2")), ("channel_title", some (Val.str "Beta")),
      ("total_views", some (Val.int 30)), ("video_count", some (Val.int 1))]]⟩

/-- Annotation store of the C8 witness and counterexample: `c2` flagged UGC. -/
def c8Ann : DF :=
  ⟨["channel_id", "channel_title", "ugc", "first_marked_at", "last_updated_at"],
    [[("channel_id", some (Val.str "c2")), ("channel_title", some (Val.str "Beta")),
      ("ugc", some (Val.bool true)), ("first_marked_at", some (Val.str "2025-01-01")),
      ("last_updated_at", some (Val.str "2025-01-01"))]]⟩

/-- Aggregate frame of the C8 counterexample: the right schema but no rows,
so its total view count is zero. -/
def c8EmptyChan : DF := ⟨["channel_id", "channel_title", "total_views", "video_count"], []⟩

/-! ## Basic lemmas about rows and cells -/

theorem getCell_nil (c : String) : getCell [] c = none := rfl

theorem getCell_cons (c : String) (v : Cell) (r : Row) (c' : String) :
    getCell ((c, v) :: r) c' = if c = c' then v else getCell r c' := rfl

theorem hasCol_nil (c : String) : hasCol [] c = false := rfl

theorem hasCol_cons (p : String × Cell) (r : Row) (c : String) :
    hasCol (p :: r) c = (decide (p.1 = c) || hasCol r c) := by
  simp [hasCol, List.any_cons]

theorem getCell_append (r s : Row) (c : String) :
    getCell (r ++ s) c = if hasCol r c then getCell r c else getCell s c := by
  induction r with
  | nil => simp [hasCol, getCell]
  | cons p r ih =>
    obtain ⟨c₁, v₁⟩ := p
    by_cases h : c₁ = c
    · subst h
      simp [getCell_cons, hasCol_cons]
    · simp [getCell_cons, hasCol_cons, h, ih]

theorem getCell_eq_none_of_not_hasCol {r : Row} {c : String} (h : hasCol r c = false) :
    getCell r c = none := by
  induction r with
  | nil => rfl
  | cons p r ih =>
    rw [hasCol_cons] at h
    obtain ⟨c₁, v₁⟩ := p
    simp only [Bool.or_eq_false_iff, decide_eq_false_iff_not] at h
    rw [getCell_cons, if_neg h.1]
    exact ih h.2


theorem getCell_mapOverwrite_self (r : Row) (c : String) (v : Cell)
    (h : hasCol r c = true) :
    getCell (r.map (fun p => if p.1 = c then (c, v) else p)) c = v := by
  induction r with
  | nil => simp [hasCol] at h
  | cons p r ih =>
    obtain ⟨c₁, v₁⟩ := p
    by_cases h1 : c₁ = c
    · simp [h1, getCell_cons]
    · rw [hasCol_cons] at h
      simp only [decide_eq_true_eq, h1, false_or] at h
      simp only [List.map_cons, if_neg h1, getCell_cons, if_neg h1]
      exact ih h

theorem getCell_mapOverwrite_ne (r : Row) (c c' : String) (v : Cell) (h : c ≠ c') :
    getCell (r.map (fun p => if p.1 = c then (c, v) else p)) c' = getCell r c' := by
  induction r with
  | nil => rfl
  | cons p r ih =>
    obtain ⟨c₁, v₁⟩ := p
    by_cases h1 : c₁ = c
    · subst h1
      rw [List.map_cons]
      have e1 : (if (c₁, v₁).1 = c₁ then (c₁, v) else (c₁, v₁)) = (c₁, v) := by
        simp
      rw [e1, getCell_cons, getCell_cons, if_neg h, if_neg h]
      exact ih
    · simp only [List.map_cons, if_neg h1, getCell_cons]
      by_cases h2 : c₁ = c'
      · simp [h2]
      · rw [if_neg h2, if_neg h2, ih]

theorem getCell_setCell_self (r : Row) (c : String) (v : Cell) :
    getCell (setCell r c v) c = v := by
  unfold setCell
  by_cases h : r.any (fun p => decide (p.1 = c)) = true
  · rw [if_pos h]
    exact getCell_mapOverwrite_self r c v h
  · rw [if_neg h, getCell_append]
    have hh : hasCol r c = false := by
      unfold hasCol
      rwa [Bool.not_eq_true] at h
    rw [hh]
    simp [getCell_cons]

theorem getCell_setCell_ne (r : Row) (c c' : String) (v : Cell) (h : c ≠ c') :
    getCell (setCell r c v) c' = getCell r c' := by
  unfold setCell
  by_cases hh : r.any (fun p => decide (p.1 = c)) = true
  · rw [if_pos hh]
    exact getCell_mapOverwrite_ne r c c' v h
  · rw [if_neg hh, getCell_append]
    by_cases hc : hasCol r c' = true
    · rw [if_pos hc]
    · rw [Bool.not_eq_true] at hc
      rw [hc, getCell_eq_none_of_not_hasCol hc]
      simp [getCell_cons, h, getCell_nil]

theorem getCell_eraseCol_ne (key : String) (r : Row) (c : String) (h : c ≠ key) :
    getCell (eraseCol key r) c = getCell r c := by
  induction r with
  | nil => rfl
  | cons p r ih =>
    obtain ⟨c₁, v₁⟩ := p
    unfold eraseCol
    simp only [List.filter_cons]
    by_cases h1 : c₁ = key
    · rw [if_neg (by simp [h1])]
      rw [getCell_cons, if_neg (by rw [h1]; exact fun hk => h hk.symm)]
      exact ih
    · rw [if_pos (by simp [h1])]
      rw [getCell_cons, getCell_cons]
      by_cases h2 : c₁ = c
      · simp [h2]
      · rw [if_neg h2, if_neg h2]
        exact ih

theorem getCell_alignRow (cols : List String) (r : Row) (c : String) :
    getCell (alignRow cols r) c = if c ∈ cols then getCell r c else none := by
  induction cols with
  | nil => simp [alignRow, getCell]
  | cons c₁ cs ih =>
    simp only [alignRow, List.map_cons, getCell_cons]
    by_cases h : c₁ = c
    · subst h
      simp
    · rw [if_neg h]
      simp only [alignRow] at ih
      rw [ih]
      by_cases h2 : c ∈ cs
      · rw [if_pos h2, if_pos (List.mem_cons_of_mem _ h2)]
      · rw [if_neg h2, if_neg ?hnot]
        case hnot =>
          intro hmem
          rcases List.mem_cons.mp hmem with h3 | h3
          · exact h h3.symm
          · exact h2 h3

/-! ## Deduplication lemmas -/

theorem dedupeKeepLast_sublist {α κ : Type} [DecidableEq κ] (keyf : α → κ) (l : List α) :
    (dedupeKeepLast keyf l).Sublist l := by
  induction l with
  | nil => simp [dedupeKeepLast]
  | cons r rs ih =>
    by_cases h : rs.any (fun r2 => decide (keyf r2 = keyf r)) = true
    · simp only [dedupeKeepLast, if_pos h]
      exact ih.cons r
    · simp only [dedupeKeepLast, if_neg h]
      exact ih.cons₂ r

theorem exists_key_dedupeKeepLast {α κ : Type} [DecidableEq κ] (keyf : α → κ)
    (l : List α) (k : κ) :
    (∃ r ∈ dedupeKeepLast keyf l, keyf r = k) ↔ ∃ r ∈ l, keyf r = k := by
  induction l with
  | nil => simp [dedupeKeepLast]
  | cons r rs ih =>
    by_cases h : rs.any (fun r2 => decide (keyf r2 = keyf r)) = true
    · simp only [dedupeKeepLast, if_pos h]
      rw [ih]
      constructor
      · rintro ⟨x, hx, hk⟩
        exact ⟨x, List.mem_cons_of_mem _ hx, hk⟩
      · rintro ⟨x, hx, hk⟩
        rcases List.mem_cons.mp hx with rfl | hx'
        · rcases List.any_eq_true.mp h with ⟨y, hy, hyk⟩
          exact ⟨y, hy, (of_decide_eq_true hyk).trans hk⟩
        · exact ⟨x, hx', hk⟩
    · simp only [dedupeKeepLast, if_neg h]
      constructor
      · rintro ⟨x, hx, hk⟩
        rcases List.mem_cons.mp hx with rfl | hx'
        · exact ⟨x, List.mem_cons_self _ _, hk⟩
        · obtain ⟨y, hy, hyk⟩ := ih.mp ⟨x, hx', hk⟩
          exact ⟨y, List.mem_cons_of_mem _ hy, hyk⟩
      · rintro ⟨x, hx, hk⟩
        rcases List.mem_cons.mp hx with rfl | hx'
        · exact ⟨x, List.mem_cons_self _ _, hk⟩
        · obtain ⟨y, hy, hyk⟩ := ih.mpr ⟨x, hx', hk⟩
          exact ⟨y, List.mem_cons_of_mem _ hy, hyk⟩

theorem nodup_map_key_dedupeKeepLast {α κ : Type} [DecidableEq κ] (keyf : α → κ)
    (l : List α) : ((dedupeKeepLast keyf l).map keyf).Nodup := by
  induction l with
  | nil => simp [dedupeKeepLast]
  | cons r rs ih =>
    by_cases h : rs.any (fun r2 => decide (keyf r2 = keyf r)) = true
    · simpa only [dedupeKeepLast, if_pos h] using ih
    · simp only [dedupeKeepLast, if_neg h, List.map_cons, List.nodup_cons]
      refine ⟨fun hmem => ?_, ih⟩
      rcases List.mem_map.mp hmem with ⟨x, hx, hk⟩
      rcases (exists_key_dedupeKeepLast keyf rs (keyf r)).mp ⟨x, hx, hk⟩ with ⟨y, hy, hyk⟩
      exact h (List.any_eq_true.mpr ⟨y, hy, decide_eq_true hyk⟩)

theorem filter_key_dedupeKeepLast {α κ : Type} [DecidableEq κ] (keyf : α → κ)
    (l : List α) (k : κ) :
    (dedupeKeepLast keyf l).filter (fun r => decide (keyf r = k)) =
      ((l.filter (fun r => decide (keyf r = k))).getLast?).toList := by
  induction l with
  | nil => simp [dedupeKeepLast]
  | cons r rs ih =>
    by_cases h : rs.any (fun r2 => decide (keyf r2 = keyf r)) = true
    · simp only [dedupeKeepLast, if_pos h]
      rw [ih, List.filter_cons]
      by_cases hp : keyf r = k
      · rw [if_pos (by simpa using hp)]
        have hne : rs.filter (fun r => decide (keyf r = k)) ≠ [] := by
          rcases List.any_eq_true.mp h with ⟨y, hy, hyk⟩
          have : y ∈ rs.filter (fun r => decide (keyf r = k)) :=
            List.mem_filter.mpr ⟨hy, by simpa using (of_decide_eq_true hyk).trans hp⟩
          exact fun hnil => by simp [hnil] at this
        obtain ⟨b, bs, hb⟩ := List.exists_cons_of_ne_nil hne
        rw [hb, List.getLast?_cons_cons]
      · rw [if_neg (by simpa using hp)]
    · simp only [dedupeKeepLast, if_neg h]
      rw [List.filter_cons, List.filter_cons]
      by_cases hp : keyf r = k
      · rw [if_pos (by simpa using hp), if_pos (by simpa using hp)]
        have hnil : rs.filter (fun r => decide (keyf r = k)) = [] := by
          rw [List.filter_eq_nil_iff]
          intro a ha hak
          exact h (List.any_eq_true.mpr
            ⟨a, ha, decide_eq_true ((of_decide_eq_true hak).trans hp.symm)⟩)
        have hnil2 : (dedupeKeepLast keyf rs).filter (fun r => decide (keyf r = k)) = [] := by
          rw [ih, hnil]
          rfl
        rw [hnil, hnil2]
        rfl
      · rw [if_neg (by simpa using hp), if_neg (by simpa using hp)]
        exact ih

theorem filter_key_dedupeKeepFirst {α κ : Type} [DecidableEq κ] (keyf : α → κ)
    (l : List α) (k : κ) :
    (dedupeKeepFirst keyf l).filter (fun r => decide (keyf r = k)) =
      (l.filter (fun r => decide (keyf r = k))).take 1 := by
  induction l with
  | nil => simp [dedupeKeepFirst]
  | cons r rs ih =>
    simp only [dedupeKeepFirst]
    rw [List.filter_cons, List.filter_cons]
    by_cases hp : keyf r = k
    · rw [if_pos (by simpa using hp), if_pos (by simpa using hp)]
      rw [List.filter_filter]
      have hnil : (dedupeKeepFirst keyf rs).filter
          (fun a => decide (keyf a = k) && !(decide (keyf a = keyf r))) = [] := by
        rw [List.filter_eq_nil_iff]
        intro a _ hak
        rw [Bool.and_eq_true] at hak
        have h2 : keyf a = keyf r := (of_decide_eq_true hak.1).trans hp.symm
        simp [h2] at hak
      rw [hnil]
      rfl
    · rw [if_neg (by simpa using hp), if_neg (by simpa using hp)]
      rw [List.filter_filter, ← ih]
      apply List.filter_congr
      intro a _
      by_cases hak : keyf a = k
      · have h3 : ¬(keyf a = keyf r) := fun hh => hp (hh.symm.trans hak)
        have h4 : ¬(k = keyf r) := fun hh => hp hh.symm
        simp [hak, h3, h4]
      · simp [hak]

theorem find?_key_of_nodup {α κ : Type} [DecidableEq κ] (keyf : α → κ)
    {l : List α} {x : α} (hnd : (l.map keyf).Nodup) (hx : x ∈ l) :
    l.find? (fun y => decide (keyf y = keyf x)) = some x := by
  induction l with
  | nil => simp at hx
  | cons r rs ih =>
    rw [List.map_cons, List.nodup_cons] at hnd
    rcases List.mem_cons.mp hx with rfl | hx'
    · rw [List.find?_cons]
      simp
    · rw [List.find?_cons]
      have hne : keyf r ≠ keyf x := by
        intro hh
        exact hnd.1 (hh ▸ List.mem_map_of_mem keyf hx')
      have : (decide (keyf r = keyf x)) = false := decide_eq_false (fun hh => hne hh)
      rw [this]
      exact ih hnd.2 hx'

/-! ## Sorting lemmas -/

theorem charListLe_refl : ∀ cs : List Char, charListLe cs cs = true := by
  intro cs
  induction cs with
  | nil => rfl
  | cons a as ih =>
    simp only [charListLe, Nat.lt_irrefl, if_false, if_pos rfl]
    exact ih

theorem strLe_refl (a : String) : strLe a a = true := charListLe_refl a.data

theorem charListLe_total : ∀ as bs : List Char,
    charListLe as bs = true ∨ charListLe bs as = true := by
  intro as
  induction as with
  | nil => intro bs; left; rfl
  | cons a as ih =>
    intro bs
    cases bs with
    | nil => right; rfl
    | cons b bs =>
      rcases Nat.lt_trichotomy a.toNat b.toNat with h | h | h
      · left
        simp [charListLe, h]
      · rcases ih bs with h2 | h2
        · left
          simp [charListLe, h, Nat.lt_irrefl, h2]
        · right
          simp [charListLe, h.symm, Nat.lt_irrefl, h2]
      · right
        simp [charListLe, h]

theorem charListLe_trans : ∀ as bs cs : List Char,
    charListLe as bs = true → charListLe bs cs = true → charListLe as cs = true := by
  intro as
  induction as with
  | nil => intro bs cs _ _; rfl
  | cons a as ih =>
    intro bs cs h1 h2
    cases bs with
    | nil => simp [charListLe] at h1
    | cons b bs =>
      cases cs with
      | nil => simp [charListLe] at h2
      | cons c cs =>
        simp only [charListLe] at h1 h2 ⊢
        by_cases hab : a.toNat < b.toNat
        · by_cases hbc : b.toNat < c.toNat
          · rw [if_pos (Nat.lt_trans hab hbc)]
          · simp only [if_neg hbc] at h2
            by_cases hbc2 : b.toNat = c.toNat
            · rw [if_pos (hbc2 ▸ hab)]
            · simp [hbc2] at h2
        · simp only [if_neg hab] at h1
          by_cases hab2 : a.toNat = b.toNat
          · simp only [if_pos hab2] at h1
            by_cases hbc : b.toNat < c.toNat
            · rw [if_pos (hab2 ▸ hbc)]
            · simp only [if_neg hbc] at h2
              by_cases hbc2 : b.toNat = c.toNat
              · rw [if_pos hbc2] at h2
                simp only [if_neg (hab2 ▸ hbc : ¬a.toNat < c.toNat),
                  if_pos (hab2.trans hbc2)]
                exact ih bs cs h1 h2
              · simp [hbc2] at h2
          · simp [hab2] at h1

theorem strLe_trans {a b c : String} (h1 : strLe a b = true) (h2 : strLe b c = true) :
    strLe a c = true := charListLe_trans a.data b.data c.data h1 h2

theorem strLe_of_not_strLe {a b : String} (h : strLe a b = false) : strLe b a = true := by
  rcases charListLe_total a.data b.data with h2 | h2
  · rw [strLe] at h; rw [h] at h2; exact absurd h2 (by simp)
  · exact h2

theorem insertSortedBy_perm {α : Type} (f : α → String) (x : α) (l : List α) :
    (insertSortedBy f x l).Perm (x :: l) := by
  induction l with
  | nil => exact List.Perm.refl _
  | cons y ys ih =>
    unfold insertSortedBy
    by_cases h : strLe (f x) (f y) = true
    · rw [if_pos h]
    · rw [if_neg h]
      exact (ih.cons y).trans (List.Perm.swap x y ys)

theorem sortOn_perm {α : Type} (f : α → String) (l : List α) :
    (sortOn f l).Perm l := by
  induction l with
  | nil => exact List.Perm.refl _
  | cons a l ih =>
    have : sortOn f (a :: l) = insertSortedBy f a (sortOn f l) := rfl
    rw [this]
    exact (insertSortedBy_perm f a (sortOn f l)).trans (ih.cons a)

theorem mem_sortOn {α : Type} (f : α → String) (l : List α) (x : α) :
    x ∈ sortOn f l ↔ x ∈ l := (sortOn_perm f l).mem_iff

theorem insertSortedBy_pairwise {α : Type} (f : α → String) (x : α) {l : List α}
    (hl : l.Pairwise (fun a b => strLe (f a) (f b) = true)) :
    (insertSortedBy f x l).Pairwise (fun a b => strLe (f a) (f b) = true) := by
  induction l with
  | nil => simp [insertSortedBy]
  | cons y ys ih =>
    rw [List.pairwise_cons] at hl
    unfold insertSortedBy
    by_cases h : strLe (f x) (f y) = true
    · rw [if_pos h]
      rw [List.pairwise_cons]
      constructor
      · intro z hz
        rcases List.mem_cons.mp hz with rfl | hz'
        · exact h
        · exact strLe_trans h (hl.1 z hz')
      · rw [List.pairwise_cons]
        exact hl
    · rw [if_neg h]
      rw [List.pairwise_cons]
      constructor
      · intro z hz
        rcases (insertSortedBy_perm f x ys).mem_iff.mp hz with hz'
        rcases List.mem_cons.mp hz' with rfl | hz''
        · exact strLe_of_not_strLe (by simpa using h)
        · exact hl.1 z hz''
      · exact ih hl.2

theorem sortOn_pairwise {α : Type} (f : α → String) (l : List α) :
    (sortOn f l).Pairwise (fun a b => strLe (f a) (f b) = true) := by
  induction l with
  | nil => simp [sortOn]
  | cons a l ih =>
    exact insertSortedBy_pairwise f a ih

theorem filter_insertSortedBy {α : Type} (f : α → String) (x : α) (l : List α)
    (p : α → Bool) (v : String) (hx : p x = true → f x = v)
    (hl : ∀ y ∈ l, p y = true → f y = v) :
    (insertSortedBy f x l).filter p =
      if p x then x :: l.filter p else l.filter p := by
  induction l with
  | nil =>
    simp only [insertSortedBy, List.filter_nil]
    by_cases h : p x = true
    · rw [if_pos h]
      simp [List.filter_cons, h]
    · rw [if_neg h]
      simp only [Bool.not_eq_true] at h
      simp [List.filter_cons, h]
  | cons y ys ih =>
    unfold insertSortedBy
    by_cases h : strLe (f x) (f y) = true
    · rw [if_pos h, List.filter_cons]
    · rw [if_neg h, List.filter_cons]
      have ihy := ih (fun z hz => hl z (List.mem_cons_of_mem _ hz))
      by_cases hp : p x = true
      · have hfy : p y = false := by
          by_contra hpy
          rw [Bool.not_eq_false] at hpy
          have : f y = v := hl y (List.mem_cons_self _ _) hpy
          rw [this, hx hp, strLe_refl] at h
          exact h rfl
        rw [hfy]
        simp only [Bool.false_eq_true, if_false]
        rw [ihy, if_pos hp, if_pos hp, List.filter_cons, hfy]
        simp
      · rw [ihy, if_neg hp, if_neg hp, List.filter_cons]

theorem filter_sortOn_keyConst {α : Type} (f : α → String) (l : List α)
    (p : α → Bool) (v : String) (hl : ∀ y ∈ l, p y = true → f y = v) :
    (sortOn f l).filter p = l.filter p := by
  induction l with
  | nil => rfl
  | cons a l ih =>
    have e : sortOn f (a :: l) = insertSortedBy f a (sortOn f l) := rfl
    rw [e, filter_insertSortedBy f a (sortOn f l) p v
      (hl a (List.mem_cons_self _ _))
      (fun y hy => hl y (List.mem_cons_of_mem _ ((mem_sortOn f l y).mp hy)))]
    rw [ih (fun y hy => hl y (List.mem_cons_of_mem _ hy))]
    rw [List.filter_cons]

/-! ## Merge anatomy lemmas -/

theorem mergePipeline_rows (key today : String) (M S : DF) :
    (mergePipeline key today M S).rows =
      ((updateWithSnapshot (setIndexRows key (preppedMaster key M S))
          (setIndexRows key (preppedSnapshot key M S))
        ++ newOnlyRows (setIndexRows key (preppedMaster key M S))
          (setIndexRows key (preppedSnapshot key M S))).map
        (stampOne today ((setIndexRows key (preppedSnapshot key M S)).map Prod.fst)
          (mergeLssdMissing key M S))).map (resetIndexRow key) := rfl

theorem mergePipeline_cols_head (key today : String) (M S : DF) :
    (mergePipeline key today M S).cols.head? = some key := by
  have h : ∀ L : List String,
      (if key ∈ (key :: L) then key :: (key :: L).erase key else (key :: L)).head? =
        some key := by
    intro L
    split <;> rfl
  exact h _

theorem setIndexRows_map_fst (key : String) (l : List Row) :
    (setIndexRows key l).map Prod.fst = l.map (keyCell key) := by
  simp only [setIndexRows, List.map_map]
  rfl

theorem updateWithSnapshot_map_fst (mk sk : List (Cell × Row)) :
    (updateWithSnapshot mk sk).map Prod.fst = mk.map Prod.fst := by
  simp only [updateWithSnapshot, List.map_map]
  apply List.map_congr_left
  intro m _
  simp only [Function.comp_apply]
  cases sk.find? (fun s => decide (s.1 = m.1)) <;> rfl

theorem stampOne_fst (today : String) (ks : List Cell) (b : Bool) (p : Cell × Row) :
    (stampOne today ks b p).1 = p.1 := rfl

theorem getCell_resetIndexRow_key (key : String) (p : Cell × Row) :
    getCell (resetIndexRow key p) key = p.1 := by
  simp [resetIndexRow, getCell_cons]

theorem getCell_renameIndexMap (key c : String) (r : Row) (hc : c ≠ key)
    (hi : c ≠ "index") :
    getCell (r.map (fun q => if q.1 = "index" then (key, q.2) else q)) c = getCell r c := by
  induction r with
  | nil => rfl
  | cons q r ih =>
    obtain ⟨c₁, v₁⟩ := q
    by_cases h1 : c₁ = "index"
    · subst h1
      rw [List.map_cons]
      have e1 : (if ("index", v₁).1 = "index" then (key, v₁) else ("index", v₁)) =
          (key, v₁) := by simp
      rw [e1, getCell_cons, getCell_cons]
      rw [if_neg (fun hh : key = c => hc hh.symm), if_neg (fun hh : "index" = c => hi hh.symm)]
      exact ih
    · rw [List.map_cons]
      have e1 : (if (c₁, v₁).1 = "index" then (key, v₁) else (c₁, v₁)) = (c₁, v₁) := by
        simp [h1]
      rw [e1, getCell_cons, getCell_cons]
      by_cases h2 : c₁ = c
      · simp [h2]
      · rw [if_neg h2, if_neg h2]
        exact ih

theorem getCell_resetIndexRow_ne (key c : String) (p : Cell × Row) (hc : c ≠ key)
    (hi : c ≠ "index") :
    getCell (resetIndexRow key p) c = getCell p.2 c := by
  unfold resetIndexRow
  rw [getCell_cons, if_neg (fun hh => hc hh.symm)]
  exact getCell_renameIndexMap key c p.2 hc hi

theorem getCell_stampOne_lmo (today : String) (ks : List Cell) (b : Bool) (p : Cell × Row) :
    getCell (stampOne today ks b p).2 "last_merged_on" = some (Val.str today) := by
  simp only [stampOne]
  exact getCell_setCell_self _ _ _

theorem getCell_stampOne_pils (today : String) (ks : List Cell) (b : Bool) (p : Cell × Row) :
    getCell (stampOne today ks b p).2 "present_in_latest_snapshot" =
      some (Val.bool (ks.any (fun k2 => decide (k2 = p.1)))) := by
  simp only [stampOne]
  set r1 := setCell p.2 "present_in_latest_snapshot"
    (some (Val.bool (ks.any (fun k2 => decide (k2 = p.1))))) with hr1
  set r2 := if b = true then setCell r1 "last_seen_snapshot_date" none else r1 with hr2
  have peelLmo : ∀ r : Row, getCell (setCell r "last_merged_on" (some (Val.str today)))
      "present_in_latest_snapshot" = getCell r "present_in_latest_snapshot" :=
    fun r => getCell_setCell_ne r _ _ _ (by decide)
  have peelLssd : ∀ (r : Row) (v : Cell), getCell (setCell r "last_seen_snapshot_date" v)
      "present_in_latest_snapshot" = getCell r "present_in_latest_snapshot" :=
    fun r v => getCell_setCell_ne r _ _ v (by decide)
  have h1 : getCell r1 "present_in_latest_snapshot" =
      some (Val.bool (ks.any (fun k2 => decide (k2 = p.1)))) := getCell_setCell_self _ _ _
  have h2 : getCell r2 "present_in_latest_snapshot" =
      some (Val.bool (ks.any (fun k2 => decide (k2 = p.1)))) := by
    rw [hr2]
    split
    · rw [peelLssd, h1]
    · exact h1
  rw [peelLmo]
  split
  · rw [peelLssd, h2]
  · exact h2

theorem getCell_stampOne_lssd (today : String) (ks : List Cell) (b : Bool) (p : Cell × Row) :
    getCell (stampOne today ks b p).2 "last_seen_snapshot_date" =
      (if ks.any (fun k2 => decide (k2 = p.1)) then some (Val.str today)
       else if b then none else getCell p.2 "last_seen_snapshot_date") := by
  simp only [stampOne]
  set r1 := setCell p.2 "present_in_latest_snapshot"
    (some (Val.bool (ks.any (fun k2 => decide (k2 = p.1))))) with hr1
  set r2 := if b = true then setCell r1 "last_seen_snapshot_date" none else r1 with hr2
  have peelLmo : ∀ r : Row, getCell (setCell r "last_merged_on" (some (Val.str today)))
      "last_seen_snapshot_date" = getCell r "last_seen_snapshot_date" :=
    fun r => getCell_setCell_ne r _ _ _ (by decide)
  have peelLssd : ∀ (r : Row) (v : Cell), getCell (setCell r "last_seen_snapshot_date" v)
      "present_in_latest_snapshot" = getCell r "present_in_latest_snapshot" :=
    fun r v => getCell_setCell_ne r _ _ v (by decide)
  have h1 : getCell r1 "present_in_latest_snapshot" =
      some (Val.bool (ks.any (fun k2 => decide (k2 = p.1)))) := getCell_setCell_self _ _ _
  have h2 : getCell r2 "present_in_latest_snapshot" =
      some (Val.bool (ks.any (fun k2 => decide (k2 = p.1)))) := by
    rw [hr2]
    split
    · rw [peelLssd, h1]
    · exact h1
  rw [peelLmo]
  by_cases hA : ks.any (fun k2 => decide (k2 = p.1)) = true
  · rw [if_pos (by rw [h2, hA]), if_pos hA]
    exact getCell_setCell_self _ _ _
  · rw [if_neg (fun hcc => by rw [h2] at hcc; exact hA (Val.bool.injEq _ _ ▸
      (Option.some.injEq _ _ ▸ hcc)))]
    rw [if_neg hA, hr2]
    split
    · exact getCell_setCell_self _ _ _
    · rw [hr1]
      exact getCell_setCell_ne _ _ _ _ (by decide)

theorem getCell_stampOne_other (today : String) (ks : List Cell) (b : Bool)
    (p : Cell × Row) (c : String) (hc1 : c ≠ "present_in_latest_snapshot")
    (hc2 : c ≠ "last_seen_snapshot_date") (hc3 : c ≠ "last_merged_on") :
    getCell (stampOne today ks b p).2 c = getCell p.2 c := by
  simp only [stampOne]
  set r1 := setCell p.2 "present_in_latest_snapshot"
    (some (Val.bool (ks.any (fun k2 => decide (k2 = p.1))))) with hr1
  set r2 := if b = true then setCell r1 "last_seen_snapshot_date" none else r1 with hr2
  have e1 : getCell r1 c = getCell p.2 c := by
    rw [hr1]
    exact getCell_setCell_ne _ _ _ _ (fun hh => hc1 hh.symm)
  have e2 : getCell r2 c = getCell p.2 c := by
    rw [hr2]
    split
    · rw [getCell_setCell_ne _ _ _ _ (fun hh => hc2 hh.symm)]
      exact e1
    · exact e1
  rw [getCell_setCell_ne _ _ _ _ (fun hh => hc3 hh.symm)]
  split
  · rw [getCell_setCell_ne _ _ _ _ (fun hh => hc2 hh.symm)]
    exact e2
  · exact e2

theorem mem_dedupList {α : Type} [DecidableEq α] (l : List α) (a : α) :
    a ∈ dedupList l ↔ a ∈ l := by
  induction l with
  | nil => simp [dedupList]
  | cons x xs ih =>
    simp only [dedupList, List.mem_cons]
    by_cases h : a = x
    · simp [h]
    · simp only [h, false_or]
      rw [List.mem_filter]
      simp [h, ih]

theorem key_mem_mergeAllCols (key : String) (M S : DF) (h : key ∈ M.cols ∨ key ∈ S.cols) :
    key ∈ mergeAllCols key M S := by
  unfold mergeAllCols align_columns
  simp only []
  rw [mem_sortOn, mem_dedupList, List.mem_append]
  exact h

theorem keyCell_alignRow (key : String) (cols : List String) (r : Row) (h : key ∈ cols) :
    keyCell key (alignRow cols r) = keyCell key r := by
  unfold keyCell
  rw [getCell_alignRow, if_pos h]

theorem preppedMaster_eq (key : String) (M S : DF) :
    preppedMaster key M S =
      dedupeKeepLast (keyCell key) (M.rows.map (alignRow (mergeAllCols key M S))) := rfl

theorem preppedSnapshot_eq (key : String) (M S : DF) :
    preppedSnapshot key M S =
      dedupeKeepLast (keyCell key)
        ((S.rows.filter (fun r => (getCell r key).isSome)).map
          (alignRow (mergeAllCols key M S))) := rfl

theorem preppedMaster_keys_nodup (key : String) (M S : DF) :
    ((preppedMaster key M S).map (keyCell key)).Nodup := by
  rw [preppedMaster_eq]
  exact nodup_map_key_dedupeKeepLast _ _

theorem preppedSnapshot_keys_nodup (key : String) (M S : DF) :
    ((preppedSnapshot key M S).map (keyCell key)).Nodup := by
  rw [preppedSnapshot_eq]
  exact nodup_map_key_dedupeKeepLast _ _

theorem exists_key_preppedMaster (key : String) (M S : DF) (k : Cell)
    (hA : key ∈ mergeAllCols key M S) :
    (∃ r ∈ preppedMaster key M S, keyCell key r = k) ↔ ∃ r ∈ M.rows, keyCell key r = k := by
  rw [preppedMaster_eq, exists_key_dedupeKeepLast]
  constructor
  · rintro ⟨r, hr, hk⟩
    rcases List.mem_map.mp hr with ⟨r0, hr0, rfl⟩
    exact ⟨r0, hr0, (keyCell_alignRow key _ r0 hA).symm.trans hk⟩
  · rintro ⟨r0, hr0, hk⟩
    exact ⟨alignRow (mergeAllCols key M S) r0, List.mem_map_of_mem _ hr0,
      (keyCell_alignRow key _ r0 hA).trans hk⟩

theorem exists_key_preppedSnapshot (key : String) (M S : DF) (k : Cell)
    (hA : key ∈ mergeAllCols key M S) :
    (∃ r ∈ preppedSnapshot key M S, keyCell key r = k) ↔
      (∃ r ∈ S.rows, keyCell key r = k) ∧ k.isSome = true := by
  rw [preppedSnapshot_eq, exists_key_dedupeKeepLast]
  constructor
  · rintro ⟨r, hr, hk⟩
    rcases List.mem_map.mp hr with ⟨r0, hr0, rfl⟩
    rcases List.mem_filter.mp hr0 with ⟨hr0m, hr0s⟩
    have hkey : keyCell key r0 = k := (keyCell_alignRow key _ r0 hA).symm.trans hk
    have hsome : (keyCell key r0).isSome = true := hr0s
    exact ⟨⟨r0, hr0m, hkey⟩, hkey ▸ hsome⟩
  · rintro ⟨⟨r0, hr0, hk⟩, hks⟩
    refine ⟨alignRow (mergeAllCols key M S) r0, ?_, (keyCell_alignRow key _ r0 hA).trans hk⟩
    have hsome : (getCell r0 key).isSome = true := by
      have : (keyCell key r0).isSome = true := hk ▸ hks
      exact this
    exact List.mem_map_of_mem _ (List.mem_filter.mpr ⟨hr0, hsome⟩)

theorem preppedSnapshot_key_isSome (key : String) (M S : DF)
    (hA : key ∈ mergeAllCols key M S) :
    ∀ r ∈ preppedSnapshot key M S, (keyCell key r).isSome = true := by
  intro r hr
  rw [preppedSnapshot_eq] at hr
  have hr2 := (dedupeKeepLast_sublist (keyCell key) _).mem hr
  rcases List.mem_map.mp hr2 with ⟨r0, hr0, rfl⟩
  rcases List.mem_filter.mp hr0 with ⟨_, hr0s⟩
  rw [keyCell_alignRow key _ r0 hA]
  exact hr0s

theorem toFinset_keys_preppedMaster (key : String) (M S : DF)
    (hA : key ∈ mergeAllCols key M S) :
    ((preppedMaster key M S).map (keyCell key)).toFinset = keysOfDF key M := by
  ext k
  simp only [List.mem_toFinset, keysOfDF, List.mem_map]
  constructor
  · rintro ⟨r, hr, hk⟩
    exact (exists_key_preppedMaster key M S k hA).mp ⟨r, hr, hk⟩
  · intro h
    exact (exists_key_preppedMaster key M S k hA).mpr h

theorem toFinset_keys_preppedSnapshot (key : String) (M S : DF)
    (hA : key ∈ mergeAllCols key M S) :
    ((preppedSnapshot key M S).map (keyCell key)).toFinset = nonNullKeysOfDF key S := by
  ext k
  simp only [List.mem_toFinset, nonNullKeysOfDF, List.mem_filter, List.mem_map]
  constructor
  · rintro ⟨r, hr, hk⟩
    exact (exists_key_preppedSnapshot key M S k hA).mp ⟨r, hr, hk⟩
  · intro h
    exact (exists_key_preppedSnapshot key M S k hA).mpr h

theorem mergePipeline_out_keys (key today : String) (M S : DF) :
    (mergePipeline key today M S).rows.map (fun r => getCell r key) =
      (preppedMaster key M S).map (keyCell key) ++
      ((preppedSnapshot key M S).map (keyCell key)).filter
        (fun k => !(((preppedMaster key M S).map (keyCell key)).any
          (fun m => decide (m = k)))) := by
  rw [mergePipeline_rows, List.map_map, List.map_map]
  have e1 : ((fun r => getCell r key) ∘ resetIndexRow key) ∘
      stampOne today ((setIndexRows key (preppedSnapshot key M S)).map Prod.fst)
        (mergeLssdMissing key M S) = Prod.fst := by
    funext p
    simp only [Function.comp_apply]
    rw [getCell_resetIndexRow_key]
    rfl
  rw [e1, List.map_append]
  congr 1
  · rw [updateWithSnapshot_map_fst, setIndexRows_map_fst]
  · rw [← setIndexRows_map_fst key (preppedSnapshot key M S),
      ← setIndexRows_map_fst key (preppedMaster key M S)]
    rw [List.filter_map]
    unfold newOnlyRows
    congr 1
    apply List.filter_congr
    intro s _
    have hany : ∀ (l : List (Cell × Row)) (k : Cell),
        (l.map Prod.fst).any (fun m => decide (m = k)) =
          l.any (fun m => decide (m.1 = k)) := by
      intro l k
      induction l with
      | nil => rfl
      | cons x xs ih => simp [List.any_cons, ih]
    simp only [Function.comp_apply, hany]

theorem mergePipeline_length (key today : String) (M S : DF)
    (hA : key ∈ mergeAllCols key M S) :
    (mergePipeline key today M S).rows.length =
      (keysOfDF key M ∪ nonNullKeysOfDF key S).card := by
  have hlen : (mergePipeline key today M S).rows.length =
      ((mergePipeline key today M S).rows.map (fun r => getCell r key)).length := by
    rw [List.length_map]
  rw [hlen, mergePipeline_out_keys, List.length_append]
  set A := (preppedMaster key M S).map (keyCell key) with hAdef
  set B := (preppedSnapshot key M S).map (keyCell key) with hBdef
  have hAnd : A.Nodup := preppedMaster_keys_nodup key M S
  have hBnd : B.Nodup := preppedSnapshot_keys_nodup key M S
  have hAfin : A.toFinset = keysOfDF key M := toFinset_keys_preppedMaster key M S hA
  have hBfin : B.toFinset = nonNullKeysOfDF key S := toFinset_keys_preppedSnapshot key M S hA
  have hAlen : A.length = (keysOfDF key M).card := by
    rw [← hAfin, List.toFinset_card_of_nodup hAnd]
  have hqmem : ∀ k : Cell, (!(A.any (fun m => decide (m = k)))) = true ↔ k ∉ A := by
    intro k
    rw [Bool.not_eq_true']
    constructor
    · intro h hk
      have : A.any (fun m => decide (m = k)) = true := List.any_eq_true.mpr ⟨k, hk, by simp⟩
      rw [this] at h
      cases h
    · intro h
      rw [← Bool.not_eq_true]
      intro hcc
      rcases List.any_eq_true.mp hcc with ⟨m, hm, hmk⟩
      exact h ((of_decide_eq_true hmk) ▸ hm)
  have hfnd : (B.filter (fun k => !(A.any (fun m => decide (m = k))))).Nodup :=
    List.Nodup.sublist (List.filter_sublist B) hBnd
  have hffin : (B.filter (fun k => !(A.any (fun m => decide (m = k))))).toFinset =
      nonNullKeysOfDF key S \ keysOfDF key M := by
    ext k
    rw [List.mem_toFinset, List.mem_filter, Finset.mem_sdiff, ← hBfin, ← hAfin,
      List.mem_toFinset, List.mem_toFinset]
    constructor
    · rintro ⟨hkB, hq⟩
      exact ⟨hkB, (hqmem k).mp hq⟩
    · rintro ⟨hkB, hq⟩
      exact ⟨hkB, (hqmem k).mpr hq⟩
  have hflen : (B.filter (fun k => !(A.any (fun m => decide (m = k))))).length =
      (nonNullKeysOfDF key S \ keysOfDF key M).card := by
    rw [← hffin, List.toFinset_card_of_nodup hfnd]
  rw [hAlen, hflen]
  rw [Nat.add_comm, Finset.card_sdiff_add_card, Finset.union_comm]

theorem hasCol_alignRow (cols : List String) (r : Row) (c : String) :
    hasCol (alignRow cols r) c = decide (c ∈ cols) := by
  induction cols with
  | nil => simp [alignRow, hasCol]
  | cons c₁ cs ih =>
    simp only [alignRow, List.map_cons, hasCol_cons] at *
    by_cases h : c₁ = c
    · simp [h]
    · simp only [h, decide_eq_true_eq, decide_False, Bool.false_or]
      rw [ih]
      by_cases h2 : c ∈ cs
      · simp [h2, List.mem_cons]
      · have h3 : c ∉ c₁ :: cs := by
          intro hmem
          rcases List.mem_cons.mp hmem with h4 | h4
          · exact h h4.symm
          · exact h2 h4
        simp [h2, h3]

theorem hasCol_eraseCol_ne (key : String) (r : Row) (c : String) (h : c ≠ key) :
    hasCol (eraseCol key r) c = hasCol r c := by
  induction r with
  | nil => rfl
  | cons p r ih =>
    obtain ⟨c₁, v₁⟩ := p
    unfold eraseCol
    simp only [List.filter_cons]
    by_cases h1 : c₁ = key
    · rw [if_neg (by simp [h1])]
      unfold eraseCol at ih
      rw [ih, hasCol_cons]
      have : decide ((c₁, v₁).1 = c) = false := by
        simp only [decide_eq_false_iff_not]
        intro hh
        exact h (hh ▸ h1 ▸ rfl)
      rw [this]
      simp
    · rw [if_pos (by simp [h1])]
      rw [hasCol_cons, hasCol_cons]
      unfold eraseCol at ih
      rw [ih]

theorem getCell_updateRow (m s : Row) (c : String) :
    getCell (updateRow m s) c =
      if hasCol m c then
        (match getCell s c with
         | some w => some w
         | none => getCell m c)
      else none := by
  induction m with
  | nil => simp [updateRow, hasCol, getCell]
  | cons p m ih =>
    obtain ⟨c₁, v₁⟩ := p
    simp only [updateRow, List.map_cons] at *
    rw [getCell_cons, hasCol_cons]
    by_cases h : c₁ = c
    · subst h
      simp only [decide_True, Bool.true_or, if_pos rfl, getCell_cons, if_pos rfl]
      rfl
    · simp only [h, decide_eq_true_eq, decide_False, Bool.false_or, if_neg h]
      rw [getCell_cons, if_neg h]
      exact ih

theorem preppedMaster_shape (key : String) (M S : DF) :
    ∀ r ∈ preppedMaster key M S,
      ∃ r₀ ∈ M.rows, r = alignRow (mergeAllCols key M S) r₀ := by
  intro r hr
  rw [preppedMaster_eq] at hr
  have hr2 := (dedupeKeepLast_sublist (keyCell key) _).mem hr
  rcases List.mem_map.mp hr2 with ⟨r₀, hr₀, rfl⟩
  exact ⟨r₀, hr₀, rfl⟩

theorem preppedSnapshot_shape (key : String) (M S : DF) :
    ∀ r ∈ preppedSnapshot key M S,
      ∃ r₀ ∈ S.rows, r = alignRow (mergeAllCols key M S) r₀ := by
  intro r hr
  rw [preppedSnapshot_eq] at hr
  have hr2 := (dedupeKeepLast_sublist (keyCell key) _).mem hr
  rcases List.mem_map.mp hr2 with ⟨r₀, hr₀, rfl⟩
  exact ⟨r₀, (List.mem_filter.mp hr₀).1, rfl⟩

theorem filter_eq_length_one_of_nodup {α : Type} [DecidableEq α] {L : List α}
    (h : L.Nodup) {x : α} (hx : x ∈ L) :
    (L.filter (fun k => decide (k = x))).length = 1 := by
  induction L with
  | nil => simp at hx
  | cons a L ih =>
    rw [List.nodup_cons] at h
    rw [List.filter_cons]
    rcases List.mem_cons.mp hx with rfl | hx'
    · rw [if_pos (by simp)]
      have hnil : L.filter (fun k => decide (k = x)) = [] := by
        rw [List.filter_eq_nil_iff]
        intro b hb hbk
        exact h.1 ((of_decide_eq_true hbk) ▸ hb)
      rw [hnil]
      rfl
    · have hne : a ≠ x := fun hh => h.1 (hh ▸ hx')
      rw [if_neg (by simpa using hne)]
      exact ih h.2 hx'

theorem mem_keys_iff_any (A : List Cell) (k : Cell) :
    (A.any (fun m => decide (m = k)) = true) ↔ k ∈ A := by
  rw [List.any_eq_true]
  constructor
  · rintro ⟨m, hm, hmk⟩
    exact (of_decide_eq_true hmk) ▸ hm
  · intro h
    exact ⟨k, h, by simp⟩

theorem mergePipeline_keys_nodup (key today : String) (M S : DF) :
    ((mergePipeline key today M S).rows.map (fun r => getCell r key)).Nodup := by
  rw [mergePipeline_out_keys, List.nodup_append]
  refine ⟨preppedMaster_keys_nodup key M S,
    List.Nodup.sublist (List.filter_sublist _) (preppedSnapshot_keys_nodup key M S), ?_⟩
  intro k hkA hkF
  have hq := (List.mem_filter.mp hkF).2
  have hmem : ((preppedMaster key M S).map (keyCell key)).any
      (fun m => decide (m = k)) = true := (mem_keys_iff_any _ _).mpr hkA
  rw [hmem] at hq
  cases hq

theorem mergePipeline_exists_key (key today : String) (M S : DF)
    (hA : key ∈ mergeAllCols key M S) :
    ∀ k ∈ keysOfDF key M ∪ nonNullKeysOfDF key S,
      ∃ r ∈ (mergePipeline key today M S).rows, getCell r key = k := by
  intro k hk
  have hgoal : k ∈ (mergePipeline key today M S).rows.map (fun r => getCell r key) → 
      ∃ r ∈ (mergePipeline key today M S).rows, getCell r key = k := by
    intro hh
    rcases List.mem_map.mp hh with ⟨r, hr, hrk⟩
    exact ⟨r, hr, hrk⟩
  apply hgoal
  rw [mergePipeline_out_keys, List.mem_append]
  by_cases hkA : k ∈ (preppedMaster key M S).map (keyCell key)
  · exact Or.inl hkA
  · right
    rcases Finset.mem_union.mp hk with hkM | hkS
    · exfalso
      apply hkA
      rw [← List.mem_toFinset, toFinset_keys_preppedMaster key M S hA]
      exact hkM
    · have hkB : k ∈ (preppedSnapshot key M S).map (keyCell key) := by
        rw [← List.mem_toFinset, toFinset_keys_preppedSnapshot key M S hA]
        exact hkS
      refine List.mem_filter.mpr ⟨hkB, ?_⟩
      have : ((preppedMaster key M S).map (keyCell key)).any
          (fun m => decide (m = k)) = false := by
        rw [← Bool.not_eq_true]
        intro hcc
        exact hkA ((mem_keys_iff_any _ _).mp hcc)
      rw [this]
      rfl

theorem mem_rows_of_mem_mergedK (key today : String) (M S : DF) (p : Cell × Row)
    (hp : p ∈ updateWithSnapshot (setIndexRows key (preppedMaster key M S))
        (setIndexRows key (preppedSnapshot key M S)) ++
      newOnlyRows (setIndexRows key (preppedMaster key M S))
        (setIndexRows key (preppedSnapshot key M S))) :
    resetIndexRow key (stampOne today
        ((setIndexRows key (preppedSnapshot key M S)).map Prod.fst)
        (mergeLssdMissing key M S) p) ∈ (mergePipeline key today M S).rows := by
  rw [mergePipeline_rows]
  exact List.mem_map_of_mem _ (List.mem_map_of_mem _ hp)

theorem mergeUpdate_cell (key today : String) (M S : DF) (v : Val) (m s : Row) (c : String)
    (hm : m ∈ preppedMaster key M S) (hs : s ∈ preppedSnapshot key M S)
    (hkm : keyCell key m = some v) (hks : keyCell key s = some v)
    (hck : c ≠ key) (hc1 : c ≠ "present_in_latest_snapshot")
    (hc2 : c ≠ "last_seen_snapshot_date") (hc3 : c ≠ "last_merged_on")
    (hci : c ≠ "index") :
    ∃ r ∈ (mergePipeline key today M S).rows,
      getCell r key = some v ∧
      getCell r c = (match getCell s c with
        | some w => some w
        | none => getCell m c) := by
  have hq : ((some v : Cell), eraseCol key s) ∈ setIndexRows key (preppedSnapshot key M S) := by
    have h0 : (keyCell key s, eraseCol key s) ∈
        List.map (fun r => (keyCell key r, eraseCol key r)) (preppedSnapshot key M S) :=
      List.mem_map_of_mem _ hs
    rw [hks] at h0
    exact h0
  have hsknd : ((setIndexRows key (preppedSnapshot key M S)).map Prod.fst).Nodup := by
    rw [setIndexRows_map_fst]
    exact preppedSnapshot_keys_nodup key M S
  have hfind : (setIndexRows key (preppedSnapshot key M S)).find?
      (fun y => decide (y.1 = some v)) = some ((some v : Cell), eraseCol key s) :=
    find?_key_of_nodup Prod.fst hsknd hq
  have hp : ((some v : Cell), eraseCol key m) ∈ setIndexRows key (preppedMaster key M S) := by
    have h0 : (keyCell key m, eraseCol key m) ∈
        List.map (fun r => (keyCell key r, eraseCol key r)) (preppedMaster key M S) :=
      List.mem_map_of_mem _ hm
    rw [hkm] at h0
    exact h0
  have hupd : ((some v : Cell), updateRow (eraseCol key m) (eraseCol key s)) ∈
      updateWithSnapshot (setIndexRows key (preppedMaster key M S))
        (setIndexRows key (preppedSnapshot key M S)) := by
    unfold updateWithSnapshot
    refine List.mem_map.mpr ⟨((some v : Cell), eraseCol key m), hp, ?_⟩
    show (match (setIndexRows key (preppedSnapshot key M S)).find?
        (fun s' => decide (s'.1 = some v)) with
      | some s' => ((some v : Cell), updateRow (eraseCol key m) s'.2)
      | none => ((some v : Cell), eraseCol key m)) =
      ((some v : Cell), updateRow (eraseCol key m) (eraseCol key s))
    rw [hfind]
  refine ⟨_, mem_rows_of_mem_mergedK key today M S _ (List.mem_append_left _ hupd), ?_, ?_⟩
  · rw [getCell_resetIndexRow_key]
    rfl
  · rw [getCell_resetIndexRow_ne _ _ _ hck hci,
      getCell_stampOne_other _ _ _ _ _ hc1 hc2 hc3]
    obtain ⟨m₀, hm₀, hmeq⟩ := preppedMaster_shape key M S m hm
    obtain ⟨s₀, hs₀, hseq⟩ := preppedSnapshot_shape key M S s hs
    show getCell (updateRow (eraseCol key m) (eraseCol key s)) c = _
    rw [getCell_updateRow, hasCol_eraseCol_ne _ _ _ hck]
    rw [hmeq, hseq, hasCol_alignRow]
    by_cases hcA : c ∈ mergeAllCols key M S
    · rw [if_pos (by simpa using hcA)]
      rw [getCell_eraseCol_ne _ _ _ hck, getCell_eraseCol_ne _ _ _ hck]
    · rw [if_neg (by simpa using hcA)]
      rw [getCell_alignRow, if_neg hcA, getCell_alignRow, if_neg hcA]

theorem none_not_mem_nonNullKeys (key : String) (S : DF) :
    (none : Cell) ∉ nonNullKeysOfDF key S := by
  intro h
  rw [nonNullKeysOfDF, List.mem_toFinset, List.mem_filter] at h
  exact Option.not_isSome_iff_eq_none.mpr rfl h.2

theorem mergePipeline_pils (key today : String) (M S : DF)
    (hA : key ∈ mergeAllCols key M S)
    (hk1 : key ≠ "present_in_latest_snapshot") :
    ∀ r ∈ (mergePipeline key today M S).rows,
      getCell r "present_in_latest_snapshot" =
        some (Val.bool (decide (getCell r key ∈ nonNullKeysOfDF key S))) := by
  intro r hr
  rw [mergePipeline_rows] at hr
  rcases List.mem_map.mp hr with ⟨p₁, hp₁, rfl⟩
  rcases List.mem_map.mp hp₁ with ⟨p, _, rfl⟩
  rw [getCell_resetIndexRow_ne _ _ _ (fun hh => hk1 hh.symm) (by decide),
    getCell_stampOne_pils, getCell_resetIndexRow_key, stampOne_fst]
  congr 1
  congr 1
  by_cases hmem : p.1 ∈ nonNullKeysOfDF key S
  · rw [decide_eq_true hmem]
    apply (mem_keys_iff_any _ _).mpr
    rw [setIndexRows_map_fst, ← List.mem_toFinset, toFinset_keys_preppedSnapshot key M S hA]
    exact hmem
  · rw [decide_eq_false hmem]
    rw [← Bool.not_eq_true]
    intro hcc
    apply hmem
    have := (mem_keys_iff_any _ _).mp hcc
    rw [setIndexRows_map_fst, ← List.mem_toFinset,
      toFinset_keys_preppedSnapshot key M S hA] at this
    exact this

theorem mergePipeline_lssd_present (key today : String) (M S : DF)
    (hA : key ∈ mergeAllCols key M S)
    (hk2 : key ≠ "last_seen_snapshot_date") :
    ∀ r ∈ (mergePipeline key today M S).rows,
      getCell r key ∈ nonNullKeysOfDF key S →
        getCell r "last_seen_snapshot_date" = some (Val.str today) := by
  intro r hr hmem
  rw [mergePipeline_rows] at hr
  rcases List.mem_map.mp hr with ⟨p₁, hp₁, rfl⟩
  rcases List.mem_map.mp hp₁ with ⟨p, _, rfl⟩
  rw [getCell_resetIndexRow_key, stampOne_fst] at hmem
  rw [getCell_resetIndexRow_ne _ _ _ (fun hh => hk2 hh.symm) (by decide),
    getCell_stampOne_lssd]
  have hany : ((setIndexRows key (preppedSnapshot key M S)).map Prod.fst).any
      (fun k2 => decide (k2 = p.1)) = true := by
    apply (mem_keys_iff_any _ _).mpr
    rw [setIndexRows_map_fst, ← List.mem_toFinset, toFinset_keys_preppedSnapshot key M S hA]
    exact hmem
  rw [hany]
  rfl

theorem lssd_not_mem_allCols_of_missing (key : String) (M S : DF)
    (hb : mergeLssdMissing key M S = true) (hk2 : key ≠ "last_seen_snapshot_date") :
    "last_seen_snapshot_date" ∉ mergeAllCols key M S := by
  intro hmem
  rw [mergeLssdMissing] at hb
  simp only [decide_eq_true_eq] at hb
  apply hb
  have h1 : "last_seen_snapshot_date" ∈ (mergeAllCols key M S).erase key :=
    List.mem_erase_of_ne (fun hh => hk2 hh.symm) |>.mpr hmem
  split
  · exact h1
  · exact List.mem_append_left _ h1

theorem mergePipeline_lssd_absent (key today : String) (M S : DF)
    (hA : key ∈ mergeAllCols key M S)
    (hk2 : key ≠ "last_seen_snapshot_date") :
    ∀ m ∈ preppedMaster key M S, keyCell key m ∉ nonNullKeysOfDF key S →
      ∃ r ∈ (mergePipeline key today M S).rows,
        getCell r key = keyCell key m ∧
        getCell r "last_seen_snapshot_date" = getCell m "last_seen_snapshot_date" := by
  intro m hm hmem
  have hfind : (setIndexRows key (preppedSnapshot key M S)).find?
      (fun y => decide (y.1 = keyCell key m)) = none := by
    rw [List.find?_eq_none]
    intro y hy
    simp only [decide_eq_true_eq]
    intro hyk
    apply hmem
    have : y.1 ∈ (setIndexRows key (preppedSnapshot key M S)).map Prod.fst :=
      List.mem_map_of_mem _ hy
    rw [setIndexRows_map_fst, ← List.mem_toFinset,
      toFinset_keys_preppedSnapshot key M S hA] at this
    exact hyk ▸ this
  have hp : (keyCell key m, eraseCol key m) ∈ setIndexRows key (preppedMaster key M S) :=
    List.mem_map_of_mem _ hm
  have hupd : (keyCell key m, eraseCol key m) ∈
      updateWithSnapshot (setIndexRows key (preppedMaster key M S))
        (setIndexRows key (preppedSnapshot key M S)) := by
    unfold updateWithSnapshot
    refine List.mem_map.mpr ⟨(keyCell key m, eraseCol key m), hp, ?_⟩
    show (match (setIndexRows key (preppedSnapshot key M S)).find?
        (fun y => decide (y.1 = keyCell key m)) with
      | some s' => (keyCell key m, updateRow (eraseCol key m) s'.2)
      | none => (keyCell key m, eraseCol key m)) = (keyCell key m, eraseCol key m)
    rw [hfind]
  refine ⟨_, mem_rows_of_mem_mergedK key today M S _ (List.mem_append_left _ hupd), ?_, ?_⟩
  · rw [getCell_resetIndexRow_key, stampOne_fst]
  · rw [getCell_resetIndexRow_ne _ _ _ (fun hh => hk2 hh.symm) (by decide),
      getCell_stampOne_lssd]
    have hany : ((setIndexRows key (preppedSnapshot key M S)).map Prod.fst).any
        (fun k2 => decide (k2 = (keyCell key m, eraseCol key m).1)) = false := by
      rw [← Bool.not_eq_true]
      intro hcc
      apply hmem
      have := (mem_keys_iff_any _ _).mp hcc
      rw [setIndexRows_map_fst, ← List.mem_toFinset,
        toFinset_keys_preppedSnapshot key M S hA] at this
      exact this
    rw [hany]
    simp only [Bool.false_eq_true, if_false]
    by_cases hb : mergeLssdMissing key M S = true
    · rw [if_pos hb]
      obtain ⟨m₀, _, hmeq⟩ := preppedMaster_shape key M S m hm
      have hnomem := lssd_not_mem_allCols_of_missing key M S hb hk2
      rw [hmeq, getCell_alignRow, if_neg hnomem]
    · rw [if_neg hb]
      show getCell (eraseCol key m) "last_seen_snapshot_date" = _
      exact getCell_eraseCol_ne _ _ _ (fun hh => hk2 hh.symm)

theorem mergePipeline_lmo (key today : String) (M S : DF)
    (hk3 : key ≠ "last_merged_on") :
    ∀ r ∈ (mergePipeline key today M S).rows,
      getCell r "last_merged_on" = some (Val.str today) := by
  intro r hr
  rw [mergePipeline_rows] at hr
  rcases List.mem_map.mp hr with ⟨p₁, hp₁, rfl⟩
  rcases List.mem_map.mp hp₁ with ⟨p, _, rfl⟩
  rw [getCell_resetIndexRow_ne _ _ _ (fun hh => hk3 hh.symm) (by decide)]
  exact getCell_stampOne_lmo _ _ _ _

theorem mergePipeline_nullkey_count (key today : String) (M S : DF)
    (hA : key ∈ mergeAllCols key M S)
    (hnull : ∃ r ∈ M.rows, keyCell key r = none) :
    ((mergePipeline key today M S).rows.filter
      (fun r => decide (getCell r key = none))).length = 1 := by
  have e : ((mergePipeline key today M S).rows.filter
      (fun r => decide (getCell r key = none))).length =
      (((mergePipeline key today M S).rows.map (fun r => getCell r key)).filter
        (fun k => decide (k = none))).length := by
    rw [List.filter_map, List.length_map]
    rfl
  rw [e, mergePipeline_out_keys, List.filter_append, List.length_append]
  have hAmem : (none : Cell) ∈ (preppedMaster key M S).map (keyCell key) := by
    rw [← List.mem_toFinset, toFinset_keys_preppedMaster key M S hA, keysOfDF,
      List.mem_toFinset, List.mem_map]
    rcases hnull with ⟨r, hr, hrk⟩
    exact ⟨r, hr, hrk⟩
  have h1 := filter_eq_length_one_of_nodup (preppedMaster_keys_nodup key M S) hAmem
  have h2 : ((((preppedSnapshot key M S).map (keyCell key)).filter
      (fun k => !(((preppedMaster key M S).map (keyCell key)).any
        (fun m => decide (m = k))))).filter (fun k => decide (k = none))) = [] := by
    rw [List.filter_eq_nil_iff]
    intro k hk hkn
    have hkB := (List.mem_filter.mp hk).1
    rcases List.mem_map.mp hkB with ⟨r, hr, hrk⟩
    have := preppedSnapshot_key_isSome key M S hA r hr
    rw [hrk, of_decide_eq_true hkn] at this
    cases this
  rw [h1, h2]
  rfl

/-! ## Claim theorems: the Merge Engine -/

theorem merge_ok_elim (key today : String) (M S : DF) (out : DF)
    (hout : merge_master_with_snapshot key today M S = .ok out) :
    out = mergePipeline key today M S ∧ key ∈ M.cols ∧ key ∈ S.cols := by
  unfold merge_master_with_snapshot at hout
  split at hout
  · cases hout
  · split at hout
    · cases hout
    · rename_i h1 h2
      injection hout with h
      exact ⟨h.symm, not_not.mp h1, not_not.mp h2⟩

/-- C1 (amended): for every master and snapshot sharing the key column, every
key present in both prepared sides, and every column other than the key, the
three merge-metadata stamp columns (`present_in_latest_snapshot`,
`last_seen_snapshot_date`, `last_merged_on`) and the pathological literal
`"index"` column, the merged output's row for that key holds the master's
value whenever the snapshot's cell is null, and the snapshot's value whenever
it is non-null: an incoming null never erases an existing master value. -/
theorem merge_overwrite_null_protection
    (key today : String) (master_df snapshot_df out : DF) (v : Val) (m s : Row) (c : String)
    (hout : merge_master_with_snapshot key today master_df snapshot_df = .ok out)
    (hm : m ∈ preppedMaster key master_df snapshot_df)
    (hs : s ∈ preppedSnapshot key master_df snapshot_df)
    (hkm : keyCell key m = some v) (hks : keyCell key s = some v)
    (hck : c ≠ key) (hc1 : c ≠ "present_in_latest_snapshot")
    (hc2 : c ≠ "last_seen_snapshot_date") (hc3 : c ≠ "last_merged_on")
    (hci : c ≠ "index") :
    ∃ r ∈ out.rows, getCell r key = some v ∧
      (getCell s c = none → getCell r c = getCell m c) ∧
      (∀ w, getCell s c = some w → getCell r c = some w) := by
  obtain ⟨rfl, _, _⟩ := merge_ok_elim key today master_df snapshot_df out hout
  obtain ⟨r, hr, hrk, hrc⟩ :=
    mergeUpdate_cell key today master_df snapshot_df v m s c hm hs hkm hks hck hc1 hc2 hc3 hci
  refine ⟨r, hr, hrk, ?_, ?_⟩
  · intro hn
    rw [hrc, hn]
  · intro w hw
    rw [hrc, hw]

/-- C1 counterexample: with `last_merged_on` as a shared regular column, the
master's non-null value `"2020-01-01"` is not kept even though the snapshot's
cell for that key/column is null — the merge stamps the column to the current
date, so the claim's "every shared column" fails at the stamp columns. -/
theorem merge_overwrite_null_protection_cex :
    (merge_master_with_snapshot "video_id" "2025-06-01" cexC1Master cexC1Snapshot).map
      (fun out => out.rows.map (fun r => getCell r "last_merged_on")) =
      Except.ok [some (Val.str "2025-06-01")] ∧
    getCell [("video_id", some (Val.str "1")), ("last_merged_on", some (Val.str "2020-01-01"))]
      "last_merged_on" = some (Val.str "2020-01-01") ∧
    getCell [("video_id", some (Val.str "1")), ("last_merged_on", none)]
      "last_merged_on" = none ∧
    some (Val.str "2025-06-01") ≠ some (Val.str "2020-01-01") := by
  refine ⟨rfl, by decide, by decide, by decide⟩

/-- C1 witness: the spec's own overwrite-null-protection example, master
`(id=1, title="Old")` against snapshot `(id=1, title=null)`: the merged row
keeps `title = "Old"`. -/
theorem merge_overwrite_null_protection_witness :
    getCell [("title", none), ("video_id", some (Val.str "1"))] "title" = none ∧
    getCell [("title", some (Val.str "Old")), ("video_id", some (Val.str "1"))] "title" =
      some (Val.str "Old") ∧
    (∃ r ∈ (mergePipeline "video_id" "2025-06-01" wC1Master wC1Snapshot).rows,
      getCell r "video_id" = some (Val.str "1") ∧
      (getCell [("title", none), ("video_id", some (Val.str "1"))] "title" = none →
        getCell r "title" =
          getCell [("title", some (Val.str "Old")), ("video_id", some (Val.str "1"))] "title") ∧
      (∀ w, getCell [("title", none), ("video_id", some (Val.str "1"))] "title" = some w →
        getCell r "title" = some w)) :=
  ⟨by decide, by decide,
    merge_overwrite_null_protection "video_id" "2025-06-01" wC1Master wC1Snapshot
      (mergePipeline "video_id" "2025-06-01" wC1Master wC1Snapshot) (Val.str "1")
      [("title", some (Val.str "Old")), ("video_id", some (Val.str "1"))]
      [("title", none), ("video_id", some (Val.str "1"))] "title"
      rfl (by decide) (by decide) (by decide) (by decide) (by decide) (by decide)
      (by decide) (by decide) (by decide)⟩

/-- C2 (amended): for every master and snapshot that both contain the key
column, the merged output has exactly one row per key in
`keys(master) ∪ nonNullKeys(snapshot)` (the snapshot's null keys are dropped
by the merge, while a master null key is retained as a key of its own): the
row count equals the cardinality of that union, the output's key column has
no duplicates, every key of the union is the key of some output row (keys
only in the snapshot are appended, keys only in the master are retained),
and the key column is placed first. -/
theorem merge_row_count_law (key today : String) (M S : DF) (out : DF)
    (hout : merge_master_with_snapshot key today M S = .ok out) :
    out.rows.length = (keysOfDF key M ∪ nonNullKeysOfDF key S).card ∧
    (out.rows.map (fun r => getCell r key)).Nodup ∧
    (∀ k ∈ keysOfDF key M ∪ nonNullKeysOfDF key S,
      ∃ r ∈ out.rows, getCell r key = k) ∧
    out.cols.head? = some key := by
  obtain ⟨rfl, hM, _⟩ := merge_ok_elim key today M S out hout
  have hA : key ∈ mergeAllCols key M S := key_mem_mergeAllCols key M S (Or.inl hM)
  exact ⟨mergePipeline_length key today M S hA, mergePipeline_keys_nodup key today M S,
    mergePipeline_exists_key key today M S hA, mergePipeline_cols_head key today M S⟩

/-- C2 counterexample: when "keys" is read uniformly on both sides (null
included), the law fails — a snapshot consisting of one null-key row is
dropped, so the merge yields 1 row while `keys(M) ∪ keys(S)` has 2 elements. -/
theorem merge_row_count_law_cex :
    (merge_master_with_snapshot "video_id" "2025-06-01" cexC2Master cexC2Snapshot).map
      (fun out => out.rows.length) = Except.ok 1 ∧
    (keysOfDF "video_id" cexC2Master ∪ keysOfDF "video_id" cexC2Snapshot).card = 2 := by
  refine ⟨rfl, by decide⟩

/-- C2 witness: the spec's worked example — master with keys 1,2 and
snapshot with keys 2,3 merge into exactly 3 rows, one per key. -/
theorem merge_row_count_law_witness :
    (mergePipeline "video_id" "2025-06-01" wC2Master wC2Snapshot).rows.length =
      (keysOfDF "video_id" wC2Master ∪ nonNullKeysOfDF "video_id" wC2Snapshot).card ∧
    ((mergePipeline "video_id" "2025-06-01" wC2Master wC2Snapshot).rows.map
      (fun r => getCell r "video_id")).Nodup ∧
    (∀ k ∈ keysOfDF "video_id" wC2Master ∪ nonNullKeysOfDF "video_id" wC2Snapshot,
      ∃ r ∈ (mergePipeline "video_id" "2025-06-01" wC2Master wC2Snapshot).rows,
        getCell r "video_id" = k) ∧
    (mergePipeline "video_id" "2025-06-01" wC2Master wC2Snapshot).cols.head? =
      some "video_id" :=
  merge_row_count_law "video_id" "2025-06-01" wC2Master wC2Snapshot
    (mergePipeline "video_id" "2025-06-01" wC2Master wC2Snapshot) rfl

/-- C3: in every merge output, each row's `present_in_latest_snapshot` equals
(its key ∈ the snapshot's non-null keys); rows present in the snapshot get
`last_seen_snapshot_date = today`; every row gets `last_merged_on = today`
unconditionally; and a master row absent from the snapshot keeps its
previous `last_seen_snapshot_date` value unchanged. -/
theorem merge_stamping (key today : String) (M S : DF) (out : DF)
    (hout : merge_master_with_snapshot key today M S = .ok out)
    (hk1 : key ≠ "present_in_latest_snapshot")
    (hk2 : key ≠ "last_seen_snapshot_date") (hk3 : key ≠ "last_merged_on") :
    (∀ r ∈ out.rows,
      getCell r "present_in_latest_snapshot" =
        some (Val.bool (decide (getCell r key ∈ nonNullKeysOfDF key S))) ∧
      (getCell r key ∈ nonNullKeysOfDF key S →
        getCell r "last_seen_snapshot_date" = some (Val.str today)) ∧
      getCell r "last_merged_on" = some (Val.str today)) ∧
    (∀ m ∈ preppedMaster key M S, keyCell key m ∉ nonNullKeysOfDF key S →
      ∃ r ∈ out.rows, getCell r key = keyCell key m ∧
        getCell r "last_seen_snapshot_date" = getCell m "last_seen_snapshot_date") := by
  obtain ⟨rfl, hM, _⟩ := merge_ok_elim key today M S out hout
  have hA : key ∈ mergeAllCols key M S := key_mem_mergeAllCols key M S (Or.inl hM)
  refine ⟨fun r hr => ⟨mergePipeline_pils key today M S hA hk1 r hr,
    mergePipeline_lssd_present key today M S hA hk2 r hr,
    mergePipeline_lmo key today M S hk3 r hr⟩,
    mergePipeline_lssd_absent key today M S hA hk2⟩

/-- C3 witness: master rows 1 (absent from the snapshot, keeping its old
`last_seen_snapshot_date`) and 2 (present, hence freshly stamped), with
`last_merged_on` stamped on both. -/
theorem merge_stamping_witness :
    ((∀ r ∈ (mergePipeline "video_id" "2025-06-01" wC3Master wC3Snapshot).rows,
      getCell r "present_in_latest_snapshot" =
        some (Val.bool (decide (getCell r "video_id" ∈ nonNullKeysOfDF "video_id" wC3Snapshot))) ∧
      (getCell r "video_id" ∈ nonNullKeysOfDF "video_id" wC3Snapshot →
        getCell r "last_seen_snapshot_date" = some (Val.str "2025-06-01")) ∧
      getCell r "last_merged_on" = some (Val.str "2025-06-01")) ∧
    (∀ m ∈ preppedMaster "video_id" wC3Master wC3Snapshot,
      keyCell "video_id" m ∉ nonNullKeysOfDF "video_id" wC3Snapshot →
      ∃ r ∈ (mergePipeline "video_id" "2025-06-01" wC3Master wC3Snapshot).rows,
        getCell r "video_id" = keyCell "video_id" m ∧
        getCell r "last_seen_snapshot_date" = getCell m "last_seen_snapshot_date")) :=
  merge_stamping "video_id" "2025-06-01" wC3Master wC3Snapshot
    (mergePipeline "video_id" "2025-06-01" wC3Master wC3Snapshot) rfl
    (by decide) (by decide) (by decide)

/-- C10: null-key dropping applies only to the snapshot side — a master with
a null-key row keeps exactly one such row in the merge output (several are
deduplicated to one), and that row is stamped
`present_in_latest_snapshot = false`, even though every null-key snapshot
row is dropped. -/
theorem merge_null_key_master_retained (key today : String) (M S : DF) (out : DF)
    (hout : merge_master_with_snapshot key today M S = .ok out)
    (hk1 : key ≠ "present_in_latest_snapshot")
    (hnull : ∃ r ∈ M.rows, keyCell key r = none) :
    (out.rows.filter (fun r => decide (getCell r key = none))).length = 1 ∧
    (∀ r ∈ out.rows, getCell r key = none →
      getCell r "present_in_latest_snapshot" = some (Val.bool false)) := by
  obtain ⟨rfl, hM, _⟩ := merge_ok_elim key today M S out hout
  have hA : key ∈ mergeAllCols key M S := key_mem_mergeAllCols key M S (Or.inl hM)
  refine ⟨mergePipeline_nullkey_count key today M S hA hnull, fun r hr hrk => ?_⟩
  have := mergePipeline_pils key today M S hA hk1 r hr
  rw [hrk] at this
  rw [this, decide_eq_false (none_not_mem_nonNullKeys key S)]

/-- C10 witness: a master with two null-key rows and a snapshot that also
carries a (dropped) null-key row — the merged output keeps exactly one
null-key row, stamped not-present. -/
theorem merge_null_key_master_retained_witness :
    (0 : Nat) < wC10Master.rows.length ∧
    (((mergePipeline "video_id" "2025-06-01" wC10Master wC10Snapshot).rows.filter
      (fun r => decide (getCell r "video_id" = none))).length = 1 ∧
    (∀ r ∈ (mergePipeline "video_id" "2025-06-01" wC10Master wC10Snapshot).rows,
      getCell r "video_id" = none →
      getCell r "present_in_latest_snapshot" = some (Val.bool false))) :=
  ⟨by decide,
    merge_null_key_master_retained "video_id" "2025-06-01" wC10Master wC10Snapshot
      (mergePipeline "video_id" "2025-06-01" wC10Master wC10Snapshot) rfl
      (by decide) (by decide)⟩

/-! ## Identity Normalizer lemmas -/

theorem toNat_toLower (c : Char) :
    (Char.toLower c).toNat =
      if 65 ≤ c.toNat ∧ c.toNat ≤ 90 then c.toNat + 32 else c.toNat := by
  unfold Char.toLower
  split
  · rename_i h
    rw [if_pos ⟨h.1, h.2⟩]
    have hvalid : (c.toNat + 32).isValidChar := by
      unfold Nat.isValidChar
      left
      have := h.2
      omega
    unfold Char.ofNat
    rw [dif_pos hvalid]
    rfl
  · rename_i h
    rw [if_neg (fun hc => h ⟨hc.1, hc.2⟩)]

theorem toLower_fixed_of_not_upper (c : Char)
    (h : ¬(65 ≤ c.toNat ∧ c.toNat ≤ 90)) : Char.toLower c = c := by
  unfold Char.toLower
  exact if_neg (fun hc => h ⟨hc.1, hc.2⟩)

theorem toLower_not_upper (c : Char) :
    ¬(65 ≤ (Char.toLower c).toNat ∧ (Char.toLower c).toNat ≤ 90) := by
  rw [toNat_toLower]
  split
  · rename_i h
    omega
  · rename_i h
    exact fun hc => h hc

theorem toLower_idem (c : Char) : Char.toLower (Char.toLower c) = Char.toLower c :=
  toLower_fixed_of_not_upper _ (toLower_not_upper c)

theorem slugChar_not_whitespace (c : Char) (h : slugChar c = true) :
    c.isWhitespace = false := by
  by_contra hw
  rw [Bool.not_eq_false] at hw
  have hc : ((c = ' ' ∨ c = '\t') ∨ c = '\r') ∨ c = '\n' := by
    simpa [Char.isWhitespace] using hw
  rcases hc with ((rfl | rfl) | rfl) | rfl <;> exact absurd h (by decide)

theorem dropWhile_eq_self_of_all {α : Type} (p : α → Bool) (l : List α)
    (h : ∀ c ∈ l, p c = false) : l.dropWhile p = l := by
  cases l with
  | nil => rfl
  | cons a l => exact List.dropWhile_cons_of_neg (by simp [h a (List.mem_cons_self _ _)])

theorem stripChars_eq_self (l : List Char) (h : ∀ c ∈ l, c.isWhitespace = false) :
    stripChars l = l := by
  unfold stripChars
  rw [dropWhile_eq_self_of_all _ _ h,
    dropWhile_eq_self_of_all _ _ (fun c hc => h c (List.mem_reverse.mp hc))]
  exact List.reverse_reverse l

theorem slugifyChars_chars (x : List Char) :
    ∀ c ∈ slugifyChars x, slugChar c = true ∧ Char.toLower c = c := by
  intro c hc
  have he : slugifyChars x =
      ((if ((stripChars x).map Char.toLower).head? = some '"' ∧
           ((stripChars x).map Char.toLower).getLast? = some '"' then
          (((stripChars x).map Char.toLower).drop 1).dropLast
        else (stripChars x).map Char.toLower).map
        (fun ch => if ch = ' ' then '_' else ch)).filter slugChar := rfl
  rw [he] at hc
  rcases List.mem_filter.mp hc with ⟨hm, hP⟩
  refine ⟨hP, ?_⟩
  rcases List.mem_map.mp hm with ⟨d, hd, rfl⟩
  have hd2 : d ∈ (stripChars x).map Char.toLower := by
    revert hd
    split
    · intro hd
      exact ((List.dropLast_sublist _).trans (List.drop_sublist 1 _)).mem hd
    · intro hd
      exact hd
  rcases List.mem_map.mp hd2 with ⟨e, _, rfl⟩
  by_cases hsp : Char.toLower e = ' '
  · rw [if_pos hsp]
    decide
  · rw [if_neg hsp]
    exact toLower_idem e

/-- C7: `slugify` is total (a Lean function on all of `String`) and
idempotent, and matches the two worked examples from the spec. -/
theorem slugify_total_idempotent :
    (∀ x : String, slugify_show_name (slugify_show_name x) = slugify_show_name x) ∧
    slugify_show_name "\"Beverly Hills 90210\"" = "beverly_hills_90210" ∧
    slugify_show_name "The Wire!" = "the_wire" := by
  refine ⟨?_, by decide, by decide⟩
  intro x
  unfold slugify_show_name
  congr 1
  show slugifyChars (slugifyChars x.data) = slugifyChars x.data
  set y := slugifyChars x.data with hy
  have hchars : ∀ c ∈ y, slugChar c = true ∧ Char.toLower c = c := by
    rw [hy]
    exact slugifyChars_chars x.data
  have h1 : stripChars y = y :=
    stripChars_eq_self y (fun c hc => slugChar_not_whitespace c (hchars c hc).1)
  have h2 : y.map Char.toLower = y := by
    rw [List.map_congr_left (fun c hc => (hchars c hc).2)]
    exact List.map_id y
  have hq : ¬(y.head? = some '"' ∧ y.getLast? = some '"') := by
    rintro ⟨hh, _⟩
    have hmem : '"' ∈ y := List.mem_of_mem_head? (Option.mem_def.mpr hh)
    exact absurd (hchars '"' hmem).1 (by decide)
  have h4 : y.map (fun ch => if ch = ' ' then '_' else ch) = y := by
    have hcong : ∀ c ∈ y, (if c = ' ' then '_' else c) = id c := by
      intro c hc
      have hne : c ≠ ' ' := by
        intro hh
        subst hh
        exact absurd (hchars ' ' hc).1 (by decide)
      rw [if_neg hne]
      rfl
    rw [List.map_congr_left hcong]
    exact List.map_id y
  have h5 : y.filter slugChar = y := List.filter_eq_self.mpr (fun c hc => (hchars c hc).1)
  have he : slugifyChars y =
      ((if ((stripChars y).map Char.toLower).head? = some '"' ∧
           ((stripChars y).map Char.toLower).getLast? = some '"' then
          (((stripChars y).map Char.toLower).drop 1).dropLast
        else (stripChars y).map Char.toLower).map
        (fun ch => if ch = ' ' then '_' else ch)).filter slugChar := rfl
  rw [he, h1, h2, if_neg hq, h4, h5]

/-! ## Claim theorems: the Ignore Overlay filter -/

theorem dedupList_eq_nil {α : Type} [DecidableEq α] (l : List α) :
    dedupList l = [] ↔ l = [] := by
  cases l with
  | nil => simp [dedupList]
  | cons x xs => simp [dedupList]

/-- C5: for every slug, master record set and ignore store,
`filter_master_for_show` returns exactly the master rows whose stringified
key is not among the stringified ignored video ids of that slug (every other
record unchanged, schema unchanged), and returns the input unchanged when
the ignore list is empty; the store itself is never written (the function
only reads it). -/
theorem ignore_filter_correct (st : Option DF) (slug : String) (master_df : DF) :
    (filter_master_for_show st slug master_df).cols = master_df.cols ∧
    (filter_master_for_show st slug master_df).rows =
      master_df.rows.filter
        (fun r => !(decide (cellToStr (getCell r "video_id") ∈ ignoredKeyStrs st slug))) ∧
    ((load_ignore_list st).rows = [] → filter_master_for_show st slug master_df = master_df) := by
  have hL : ignoredKeyStrs st slug =
      (((load_ignore_list st).rows.filter
        (fun e => decide (getCell e "slug" = some (Val.str slug)))).filterMap
        (fun e => getCell e "video_id")).map valToStr := by
    unfold ignoredKeyStrs
    rw [List.map_filterMap]
  by_cases hempty : (load_ignore_list st).rows.isEmpty = true
  · have hres : filter_master_for_show st slug master_df = master_df := by
      unfold filter_master_for_show
      rw [if_pos hempty]
    have hkeys : ignoredKeyStrs st slug = [] := by
      rw [hL, List.isEmpty_iff.mp hempty]
      rfl
    refine ⟨by rw [hres], ?_, fun _ => hres⟩
    rw [hres, hkeys]
    symm
    apply List.filter_eq_self.mpr
    intro a _
    simp
  · by_cases hbad : (dedupList
        ((((load_ignore_list st).rows.filter
          (fun e => decide (getCell e "slug" = some (Val.str slug)))).filterMap
          (fun e => getCell e "video_id")).map valToStr)).isEmpty = true
    · have hres : filter_master_for_show st slug master_df = master_df := by
        unfold filter_master_for_show
        rw [if_neg hempty, if_pos hbad]
      have hkeys : ignoredKeyStrs st slug = [] := by
        rw [hL]
        exact (dedupList_eq_nil _).mp (List.isEmpty_iff.mp hbad)
      refine ⟨by rw [hres], ?_, fun hnil => absurd (List.isEmpty_iff.mpr hnil) hempty⟩
      rw [hres, hkeys]
      symm
      apply List.filter_eq_self.mpr
      intro a _
      simp
    · have hres : filter_master_for_show st slug master_df =
          ⟨master_df.cols, master_df.rows.filter
            (fun r => !((dedupList
              ((((load_ignore_list st).rows.filter
                (fun e => decide (getCell e "slug" = some (Val.str slug)))).filterMap
                (fun e => getCell e "video_id")).map valToStr)).any
              (fun b => decide (cellToStr (getCell r "video_id") = b))))⟩ := by
        unfold filter_master_for_show
        rw [if_neg hempty, if_neg hbad]
      refine ⟨by rw [hres], ?_, fun hnil => absurd (List.isEmpty_iff.mpr hnil) hempty⟩
      rw [hres]
      apply List.filter_congr
      intro r _
      congr 1
      by_cases hmem : cellToStr (getCell r "video_id") ∈ ignoredKeyStrs st slug
      · rw [decide_eq_true hmem]
        apply List.any_eq_true.mpr
        refine ⟨cellToStr (getCell r "video_id"), ?_, by simp⟩
        rw [mem_dedupList, ← hL]
        exact hmem
      · rw [decide_eq_false hmem]
        rw [← Bool.not_eq_true]
        intro hcc
        apply hmem
        rcases List.any_eq_true.mp hcc with ⟨b, hb, hbe⟩
        rw [mem_dedupList, ← hL] at hb
        exact (of_decide_eq_true hbe) ▸ hb

/-- C5 witness: a store ignoring video `v1` for slug `"show"` filters `v1`
out of a two-row master and keeps `v2` unchanged. -/
theorem ignore_filter_correct_witness :
    (filter_master_for_show
        (some ⟨ignoreCols, [[("slug", some (Val.str "show")), ("video_id", some (Val.str "v1"))]]⟩)
        "show" ⟨["video_id"], [[("video_id", some (Val.str "v1"))], [("video_id", some (Val.str "v2"))]]⟩).cols =
      ["video_id"] ∧
    (filter_master_for_show
        (some ⟨ignoreCols, [[("slug", some (Val.str "show")), ("video_id", some (Val.str "v1"))]]⟩)
        "show" ⟨["video_id"], [[("video_id", some (Val.str "v1"))], [("video_id", some (Val.str "v2"))]]⟩).rows =
      ([[("video_id", some (Val.str "v1"))], [("video_id", some (Val.str "v2"))]] : List Row).filter
        (fun r => !(decide (cellToStr (getCell r "video_id") ∈
          ignoredKeyStrs (some ⟨ignoreCols, [[("slug", some (Val.str "show")), ("video_id", some (Val.str "v1"))]]⟩) "show"))) :=
  ⟨(ignore_filter_correct
      (some ⟨ignoreCols, [[("slug", some (Val.str "show")), ("video_id", some (Val.str "v1"))]]⟩)
      "show" ⟨["video_id"], [[("video_id", some (Val.str "v1"))], [("video_id", some (Val.str "v2"))]]⟩).1,
   (ignore_filter_correct
      (some ⟨ignoreCols, [[("slug", some (Val.str "show")), ("video_id", some (Val.str "v1"))]]⟩)
      "show" ⟨["video_id"], [[("video_id", some (Val.str "v1"))], [("video_id", some (Val.str "v2"))]]⟩).2.1⟩

/-! ## Claim theorems: empty-input handling and ignore append -/

/-- C9 counterexample: an empty identifier list is not rejected with an
error — both the ignore append and the annotation upsert return successfully
(and leave a nonexistent store uncreated), rather than raising a
`ValidationError` as the claim states. -/
theorem empty_input_no_write_cex :
    append_ignores_for_show none "show" ⟨["video_id"], []⟩ "r" "2025-01-01" =
      Except.ok none ∧
    upsert_channel_annotations none ⟨["channel_id", "channel_title", "ugc"], []⟩
      "2025-01-01" (Except.ok none) :=
  ⟨rfl, rfl⟩

/-- C9 (amended): calling the Ignore Overlay's append or the Channel
Annotation Store's upsert with an empty row set is a silent no-op: no error
is raised, and the durable store is not written — in particular a
nonexistent store stays nonexistent. -/
theorem empty_input_no_write (st : Option DF) (slug : String)
    (cols₁ cols₂ : List String) (reason today : String) :
    append_ignores_for_show st slug ⟨cols₁, []⟩ reason today = .ok st ∧
    ∀ res, upsert_channel_annotations st ⟨cols₂, []⟩ today res ↔ res = .ok st :=
  ⟨rfl, fun _ => Iff.rfl⟩

theorem mem_unionCols (c : String) (a b : List String) :
    c ∈ unionCols a b ↔ c ∈ a ∨ c ∈ b := by
  unfold unionCols
  rw [List.mem_append, List.mem_filter]
  constructor
  · rintro (h | ⟨h, _⟩)
    · exact Or.inl h
    · exact Or.inr h
  · rintro (h | h)
    · exact Or.inl h
    · by_cases ha : c ∈ a
      · exact Or.inl ha
      · exact Or.inr ⟨h, by simpa using ha⟩

theorem ensureCols_id (defaults : List (String × Cell)) (df : DF)
    (h : ∀ p ∈ defaults, p.1 ∈ df.cols) : ensureCols defaults df = df := by
  induction defaults generalizing df with
  | nil => rfl
  | cons p ps ih =>
    unfold ensureCols
    rw [List.foldl_cons, if_pos (h p (List.mem_cons_self _ _))]
    exact ih df (fun q hq => h q (List.mem_cons_of_mem _ hq))

theorem append_ok_elim (st : Option DF) (slug : String) (rows_df : DF)
    (reason today : String) (st' : Option DF)
    (hne : rows_df.rows ≠ []) (hvid : "video_id" ∈ rows_df.cols)
    (h : append_ignores_for_show st slug rows_df reason today = .ok st') :
    st' = some ⟨unionCols (load_ignore_list st).cols ignoreCols,
      dedupeKeepFirst ignoreKey ((load_ignore_list st).rows ++
        rows_df.rows.map (newIgnoreRow slug rows_df reason today))⟩ := by
  unfold append_ignores_for_show at h
  rw [if_neg (fun hc => hne (List.isEmpty_iff.mp hc)), if_pos hvid] at h
  injection h with h
  exact h.symm

theorem ignoreEntriesFor_eq_filter (df : DF) (slug : String) (v : Cell) :
    ignoreEntriesFor df slug v =
      df.rows.filter (fun r => decide (ignoreKey r = (some (Val.str slug), v))) := rfl

/-- C4: for every starting store without an entry for `(slug, v)`, appending
a row for video `v` twice (with any reasons and dates, and any optional
columns) leaves exactly one ignore entry for `(slug, v)`, and that entry
keeps the `first_marked_at` and `reason` of the first call — the second call
is a no-op for that key. -/
theorem ignore_append_idempotent
    (st₀ : Option DF) (slug : String) (v : Cell)
    (rows₁ rows₂ : DF) (r₁ r₂ : Row)
    (reason₁ reason₂ today₁ today₂ : String) (st₁ st₂ : Option DF)
    (hr₁ : rows₁.rows = [r₁]) (hv₁ : "video_id" ∈ rows₁.cols)
    (hk₁ : getCell r₁ "video_id" = v)
    (hr₂ : rows₂.rows = [r₂]) (hv₂ : "video_id" ∈ rows₂.cols)
    (hk₂ : getCell r₂ "video_id" = v)
    (h0 : ignoreEntriesFor (load_ignore_list st₀) slug v = [])
    (h1 : append_ignores_for_show st₀ slug rows₁ reason₁ today₁ = .ok st₁)
    (h2 : append_ignores_for_show st₁ slug rows₂ reason₂ today₂ = .ok st₂) :
    ∃ df₂, st₂ = some df₂ ∧
      (ignoreEntriesFor df₂ slug v).length = 1 ∧
      ∀ e ∈ ignoreEntriesFor df₂ slug v,
        getCell e "reason" = some (Val.str reason₁) ∧
        getCell e "first_marked_at" = some (Val.str today₁) := by
  have hst₁ := append_ok_elim st₀ slug rows₁ reason₁ today₁ st₁
    (by rw [hr₁]; exact List.cons_ne_nil _ _) hv₁ h1
  set n₁ := newIgnoreRow slug rows₁ reason₁ today₁ r₁ with hn₁
  set df₁ : DF := ⟨unionCols (load_ignore_list st₀).cols ignoreCols,
    dedupeKeepFirst ignoreKey ((load_ignore_list st₀).rows ++ [n₁])⟩ with hdf₁
  have hst₁' : st₁ = some df₁ := by
    rw [hst₁, hdf₁, hr₁]
    rfl
  have hkeyn₁ : ignoreKey n₁ = (some (Val.str slug), v) := by
    rw [hn₁]
    unfold ignoreKey newIgnoreRow
    rw [← hk₁]
    congr 1
  have hentries₁ : ignoreEntriesFor df₁ slug v = [n₁] := by
    rw [ignoreEntriesFor_eq_filter, hdf₁]
    rw [filter_key_dedupeKeepFirst ignoreKey _ (some (Val.str slug), v)]
    rw [List.filter_append]
    rw [← ignoreEntriesFor_eq_filter, h0]
    have : ([n₁].filter (fun r => decide (ignoreKey r = (some (Val.str slug), v)))) = [n₁] := by
      rw [List.filter_cons, if_pos (by rw [hkeyn₁]; simp)]
      rfl
    rw [this]
    rfl
  have hload₁ : load_ignore_list st₁ = df₁ := by
    rw [hst₁']
    unfold load_ignore_list
    apply ensureCols_id
    intro p hp
    rcases List.mem_map.mp hp with ⟨c, hc, rfl⟩
    rw [hdf₁]
    exact (mem_unionCols c _ _).mpr (Or.inr hc)
  have hst₂ := append_ok_elim st₁ slug rows₂ reason₂ today₂ st₂
    (by rw [hr₂]; exact List.cons_ne_nil _ _) hv₂ h2
  set n₂ := newIgnoreRow slug rows₂ reason₂ today₂ r₂ with hn₂
  set df₂ : DF := ⟨unionCols (load_ignore_list st₁).cols ignoreCols,
    dedupeKeepFirst ignoreKey ((load_ignore_list st₁).rows ++ [n₂])⟩ with hdf₂
  have hst₂' : st₂ = some df₂ := by
    rw [hst₂, hdf₂, hr₂]
    rfl
  have hentries₂ : ignoreEntriesFor df₂ slug v = [n₁] := by
    rw [ignoreEntriesFor_eq_filter, hdf₂]
    rw [filter_key_dedupeKeepFirst ignoreKey _ (some (Val.str slug), v)]
    rw [List.filter_append]
    rw [hload₁, ← ignoreEntriesFor_eq_filter, hentries₁]
    have hn₂f : ([n₂].filter (fun r => decide (ignoreKey r = (some (Val.str slug), v)))) = [n₂] := by
      rw [List.filter_cons]
      rw [if_pos ?hc]
      · rfl
      case hc =>
        have : ignoreKey n₂ = (some (Val.str slug), v) := by
          rw [hn₂]
          unfold ignoreKey newIgnoreRow
          rw [← hk₂]
          congr 1
        rw [this]
        simp
    rw [hn₂f]
    rfl
  refine ⟨df₂, hst₂', ?_, ?_⟩
  · rw [hentries₂]
    rfl
  · intro e he
    rw [hentries₂] at he
    rcases List.mem_singleton.mp he with rfl
    constructor
    · rw [hn₁]
      unfold newIgnoreRow
      simp [getCell]
    · rw [hn₁]
      unfold newIgnoreRow
      simp [getCell]

/-- C4 witness: appending video `v1` for slug `"show"` twice, on different
dates and with different reasons, yields exactly one entry carrying the
first call's reason and date. -/
theorem ignore_append_idempotent_witness :
    ∃ df₂, c4St2 = some df₂ ∧
      (ignoreEntriesFor df₂ "show" (some (Val.str "v1"))).length = 1 ∧
      ∀ e ∈ ignoreEntriesFor df₂ "show" (some (Val.str "v1")),
        getCell e "reason" = some (Val.str "r1") ∧
        getCell e "first_marked_at" = some (Val.str "2025-01-01") :=
  ignore_append_idempotent none "show" (some (Val.str "v1")) c4Rows1 c4Rows2
    [("video_id", some (Val.str "v1"))]
    [("video_id", some (Val.str "v1")), ("title", some (Val.str "T"))]
    "r1" "r2" "2025-01-01" "2025-02-02" c4St1 c4St2
    rfl (by decide) rfl rfl (by decide) rfl rfl rfl rfl

/-! ## Claim theorems: the Channel Annotation Store -/

theorem charListLe_antisymm : ∀ as bs : List Char,
    charListLe as bs = true → charListLe bs as = true → as = bs := by
  intro as
  induction as with
  | nil =>
    intro bs h1 _
    cases bs with
    | nil => rfl
    | cons b bs => simp [charListLe] at *
  | cons a as ih =>
    intro bs h1 h2
    cases bs with
    | nil => simp [charListLe] at h1
    | cons b bs =>
      simp only [charListLe] at h1 h2
      by_cases hab : a.toNat < b.toNat
      · simp only [if_neg (Nat.lt_asymm hab), if_neg (fun hh : b.toNat = a.toNat =>
          Nat.lt_irrefl _ (hh ▸ hab))] at h2
        cases h2
      · simp only [if_neg hab] at h1
        by_cases hab2 : a.toNat = b.toNat
        · simp only [if_pos hab2] at h1
          simp only [if_neg (fun hh : b.toNat < a.toNat => hab (hab2 ▸ hh)),
            if_pos hab2.symm] at h2
          have heq : a = b := Char.eq_of_val_eq (UInt32.ext hab2)
          rw [heq, ih bs h1 h2]
        · simp [hab2] at h1

theorem strLe_antisymm (a b : String) (h1 : strLe a b = true) (h2 : strLe b a = true) :
    a = b := by
  have hd : a.data = b.data := charListLe_antisymm a.data b.data h1 h2
  cases a
  cases b
  congr 1

theorem perm_pair {α : Type} {l : List α} {a b : α} (h : l.Perm [a, b]) :
    l = [a, b] ∨ l = [b, a] := by
  have hlen : l.length = 2 := h.length_eq
  rcases List.length_eq_two.mp hlen with ⟨x, y, rfl⟩
  have hx : x ∈ ([a, b] : List α) := h.mem_iff.mp (List.mem_cons_self _ _)
  rcases List.mem_cons.mp hx with rfl | hx'
  · left
    have : [y].Perm [b] := (h.cons_inv)
    rw [List.perm_singleton.mp this]
  · rcases List.mem_cons.mp hx' with rfl | hx''
    · right
      have h2 : (x :: [y]).Perm (x :: [a]) := h.trans (List.Perm.swap x a [])
      rw [List.perm_singleton.mp h2.cons_inv]
    · simp at hx''

theorem load_ann_cid_shape (st : Option DF) :
    ∀ r ∈ (load_channel_annotations st).rows,
      ∃ s, getCell r "channel_id" = some (Val.str s) := by
  intro r hr
  cases st with
  | none => simp [load_channel_annotations] at hr
  | some df =>
    unfold load_channel_annotations mapCol at hr
    simp only [List.mem_map] at hr
    obtain ⟨r₁, ⟨r₀, _, rfl⟩, rfl⟩ := hr
    refine ⟨cellToStr (getCell r₀ "channel_id"), ?_⟩
    rw [getCell_setCell_ne _ _ _ _ (by decide)]
    exact getCell_setCell_self _ _ _

theorem filter_annP_eq_filter_cidKey (cid : String) (l : List Row)
    (hshape : ∀ r ∈ l, ∃ s, getCell r "channel_id" = some (Val.str s)) :
    l.filter (fun r => decide (cellToStr (getCell r "channel_id") = cid)) =
      l.filter (fun r => decide (cidKey r = some (Val.str cid))) := by
  apply List.filter_congr
  intro r hr
  obtain ⟨s, hs⟩ := hshape r hr
  unfold cidKey
  rw [hs]
  have h1 : cellToStr (some (Val.str s)) = s := rfl
  rw [h1]
  apply decide_eq_decide.mpr
  constructor
  · intro h
    rw [h]
  · intro h
    have h2 := Option.some.inj h
    exact Val.str.inj h2

theorem upsert_ok_elim (st : Option DF) (rows_df : DF) (today : String) (st' : Option DF)
    (hne : rows_df.rows ≠ [])
    (hcols : "channel_id" ∈ rows_df.cols ∧ "channel_title" ∈ rows_df.cols ∧
      "ugc" ∈ rows_df.cols)
    (h : upsert_channel_annotations st rows_df today (.ok st')) :
    ∃ sorted, sortedByOf luaKey ((load_channel_annotations st).rows ++
        rows_df.rows.map (newAnnRow today)) sorted ∧
      st' = some ⟨unionCols (load_channel_annotations st).cols annCols,
        dedupeKeepLast cidKey sorted⟩ := by
  unfold upsert_channel_annotations at h
  rw [if_neg (fun hc => hne (List.isEmpty_iff.mp hc)), if_pos hcols] at h
  obtain ⟨sorted, hs, heq⟩ := h
  injection heq with heq
  exact ⟨sorted, hs, heq⟩

theorem upsertStableRun_sound (st : Option DF) (rows_df : DF) (today : String) :
    upsert_channel_annotations st rows_df today (upsertStableRun st rows_df today) := by
  unfold upsert_channel_annotations upsertStableRun
  by_cases h1 : rows_df.rows.isEmpty = true
  · rw [if_pos h1, if_pos h1]
  · rw [if_neg h1, if_neg h1]
    by_cases h2 : "channel_id" ∈ rows_df.cols ∧ "channel_title" ∈ rows_df.cols ∧
        "ugc" ∈ rows_df.cols
    · rw [if_pos h2, if_pos h2]
      exact ⟨_, ⟨(sortOn_perm _ _).symm, sortOn_pairwise _ _⟩, rfl⟩
    · rw [if_neg h2, if_neg h2]

theorem annEntriesFor_eq_filter (df : DF) (cid : String) :
    annEntriesFor df cid =
      df.rows.filter (fun r => decide (cellToStr (getCell r "channel_id") = cid)) := rfl

theorem annEntries_upsert_result (cid : String) (cols : List String) (L : List Row)
    (hshape : ∀ r ∈ L, ∃ s, getCell r "channel_id" = some (Val.str s)) :
    annEntriesFor ⟨cols, dedupeKeepLast cidKey L⟩ cid =
      (L.filter (fun r => decide (cidKey r = some (Val.str cid)))).getLast?.toList := by
  rw [annEntriesFor_eq_filter]
  have hshape' : ∀ r ∈ dedupeKeepLast cidKey L,
      ∃ s, getCell r "channel_id" = some (Val.str s) :=
    fun r hr => hshape r ((dedupeKeepLast_sublist _ _).mem hr)
  show (dedupeKeepLast cidKey L).filter
      (fun r => decide (cellToStr (getCell r "channel_id") = cid)) = _
  rw [filter_annP_eq_filter_cidKey cid _ hshape']
  exact filter_key_dedupeKeepLast cidKey _ (some (Val.str cid))

theorem filter_sorted_pair {α : Type} (f : α → String) {l l' : List α} (p : α → Bool)
    (x y : α) (hso : sortedByOf f l l') (hfil : l.filter p = [x, y])
    (hle : strLe (f x) (f y) = true) (hne : f x ≠ f y) :
    l'.filter p = [x, y] := by
  have hperm : (l'.filter p).Perm [x, y] := by
    have h1 := hso.1.filter p
    rw [hfil] at h1
    exact h1.symm
  rcases perm_pair hperm with h | h
  · exact h
  · exfalso
    have hpw : (l'.filter p).Pairwise (fun a b => strLe (f a) (f b) = true) :=
      List.Pairwise.sublist (List.filter_sublist _) hso.2
    rw [h, List.pairwise_cons] at hpw
    have h2 := hpw.1 x (List.mem_cons_self _ _)
    exact hne (strLe_antisymm _ _ hle h2)

theorem load_ann_some (df : DF) :
    load_channel_annotations (some df) =
      mapCol "ugc" (fun c => some (Val.bool (to_bool c)))
        (mapCol "channel_id" (fun c => some (Val.str (cellToStr c)))
          (ensureCols [("channel_id", some (Val.str "")), ("channel_title", some (Val.str "")),
            ("ugc", some (Val.bool false)), ("first_marked_at", some (Val.str "")),
            ("last_updated_at", some (Val.str ""))] df)) := rfl

/-- C6 (amended): upserting `(cid, ugc=True)` on date `d₁` and then
`(cid, ugc=False)` on a strictly later date `d₂` into a store with no prior
entry for `cid` leaves — under every admissible execution of the unstable
`sort_values` — exactly one entry for `cid`, with `ugc = False` and with both
`first_marked_at` and `last_updated_at` equal to `d₂`; the original
`first_marked_at` is not preserved.  For `d₁ = d₂` the program guarantees no
such thing: pandas' default quicksort may order the two equal-key rows either
way, and an admissible equal-date execution keeping the first call's flag is
exhibited separately. -/
theorem annotation_upsert_last_write_wins
    (st₀ : Option DF) (cid : String) (rows₁ rows₂ : DF) (a₁ a₂ : Row)
    (d₁ d₂ : String) (st₁ st₂ : Option DF)
    (hr₁ : rows₁.rows = [a₁])
    (hc₁ : "channel_id" ∈ rows₁.cols ∧ "channel_title" ∈ rows₁.cols ∧ "ugc" ∈ rows₁.cols)
    (hid₁ : getCell a₁ "channel_id" = some (Val.str cid))
    (hugc₁ : getCell a₁ "ugc" = some (Val.bool true))
    (hr₂ : rows₂.rows = [a₂])
    (hc₂ : "channel_id" ∈ rows₂.cols ∧ "channel_title" ∈ rows₂.cols ∧ "ugc" ∈ rows₂.cols)
    (hid₂ : getCell a₂ "channel_id" = some (Val.str cid))
    (hugc₂ : getCell a₂ "ugc" = some (Val.bool false))
    (hd : strLe d₁ d₂ = true)
    (hdne : d₁ ≠ d₂)
    (h0 : annEntriesFor (load_channel_annotations st₀) cid = [])
    (h1 : upsert_channel_annotations st₀ rows₁ d₁ (.ok st₁))
    (h2 : upsert_channel_annotations st₁ rows₂ d₂ (.ok st₂)) :
    ∃ df₂, st₂ = some df₂ ∧
      (annEntriesFor df₂ cid).length = 1 ∧
      ∀ e ∈ annEntriesFor df₂ cid,
        getCell e "ugc" = some (Val.bool false) ∧
        getCell e "first_marked_at" = some (Val.str d₂) ∧
        getCell e "last_updated_at" = some (Val.str d₂) := by
  have hn₁ : newAnnRow d₁ a₁ =
      [("channel_id", some (Val.str cid)), ("channel_title", getCell a₁ "channel_title"),
       ("ugc", some (Val.bool true)), ("last_updated_at", some (Val.str d₁)),
       ("first_marked_at", some (Val.str d₁))] := by
    unfold newAnnRow
    rw [hid₁, hugc₁]
    rfl
  have hn₂ : newAnnRow d₂ a₂ =
      [("channel_id", some (Val.str cid)), ("channel_title", getCell a₂ "channel_title"),
       ("ugc", some (Val.bool false)), ("last_updated_at", some (Val.str d₂)),
       ("first_marked_at", some (Val.str d₂))] := by
    unfold newAnnRow
    rw [hid₂, hugc₂]
    rfl
  obtain ⟨s₁, hso₁, hst₁⟩ := upsert_ok_elim st₀ rows₁ d₁ st₁
    (by rw [hr₁]; exact List.cons_ne_nil _ _) hc₁ h1
  rw [hr₁] at hso₁
  have hmap₁ : ([a₁] : List Row).map (newAnnRow d₁) = [newAnnRow d₁ a₁] := rfl
  rw [hmap₁] at hso₁
  -- shapes
  have hshape₁ : ∀ r ∈ (load_channel_annotations st₀).rows ++ [newAnnRow d₁ a₁],
      ∃ s, getCell r "channel_id" = some (Val.str s) := by
    intro r hr
    rcases List.mem_append.mp hr with hr' | hr'
    · exact load_ann_cid_shape st₀ r hr'
    · rcases List.mem_singleton.mp hr' with rfl
      exact ⟨cid, by rw [hn₁]; rfl⟩
  have hshape₁' : ∀ r ∈ s₁, ∃ s, getCell r "channel_id" = some (Val.str s) :=
    fun r hr => hshape₁ r (hso₁.1.mem_iff.mpr hr)
  -- entries of df₁
  have hcomb₁ : ((load_channel_annotations st₀).rows ++ [newAnnRow d₁ a₁]).filter
      (fun r => decide (cidKey r = some (Val.str cid))) = [newAnnRow d₁ a₁] := by
    rw [List.filter_append]
    have hl0 : (load_channel_annotations st₀).rows.filter
        (fun r => decide (cidKey r = some (Val.str cid))) = [] := by
      rw [← filter_annP_eq_filter_cidKey cid _ (load_ann_cid_shape st₀)]
      rw [← annEntriesFor_eq_filter]
      exact h0
    rw [hl0]
    rw [List.filter_cons]
    rw [if_pos (by rw [hn₁]; simp [cidKey, getCell])]
    rfl
  have hfil₁ : s₁.filter (fun r => decide (cidKey r = some (Val.str cid))) =
      [newAnnRow d₁ a₁] := by
    have hp := hso₁.1.filter (fun r => decide (cidKey r = some (Val.str cid)))
    rw [hcomb₁] at hp
    exact List.perm_singleton.mp hp.symm
  have hent₁ : annEntriesFor
      (⟨unionCols (load_channel_annotations st₀).cols annCols,
        dedupeKeepLast cidKey s₁⟩ : DF) cid = [newAnnRow d₁ a₁] := by
    rw [annEntries_upsert_result cid _ _ hshape₁', hfil₁]
    rfl
  -- step 2: the loaded state after the first call
  have hcolsup : ∀ p ∈ [("channel_id", (some (Val.str "") : Cell)),
      ("channel_title", some (Val.str "")), ("ugc", some (Val.bool false)),
      ("first_marked_at", some (Val.str "")), ("last_updated_at", some (Val.str ""))],
      p.1 ∈ unionCols (load_channel_annotations st₀).cols annCols := by
    intro p hp
    apply (mem_unionCols _ _ _).mpr
    right
    fin_cases hp <;> simp [annCols]
  have hload₁ : load_channel_annotations st₁ =
      mapCol "ugc" (fun c => some (Val.bool (to_bool c)))
        (mapCol "channel_id" (fun c => some (Val.str (cellToStr c)))
          (⟨unionCols (load_channel_annotations st₀).cols annCols,
            dedupeKeepLast cidKey s₁⟩ : DF)) := by
    rw [hst₁, load_ann_some, ensureCols_id _ _ hcolsup]
  have hfix : (fun r => setCell r "ugc" (some (Val.bool (to_bool (getCell r "ugc")))))
      ((fun r => setCell r "channel_id" (some (Val.str (cellToStr (getCell r "channel_id")))))
        (newAnnRow d₁ a₁)) = newAnnRow d₁ a₁ := by
    rw [hn₁]
    rfl
  have hL₁filter : (load_channel_annotations st₁).rows.filter
      (fun r => decide (cidKey r = some (Val.str cid))) = [newAnnRow d₁ a₁] := by
    rw [hload₁]
    show ((((⟨unionCols (load_channel_annotations st₀).cols annCols,
        dedupeKeepLast cidKey s₁⟩ : DF)).rows.map
        (fun r => setCell r "channel_id" (some (Val.str (cellToStr (getCell r "channel_id")))))).map
        (fun r => setCell r "ugc" (some (Val.bool (to_bool (getCell r "ugc")))))).filter
        (fun r => decide (cidKey r = some (Val.str cid))) = _
    rw [List.filter_map, List.filter_map]
    have hpred : ∀ r : Row,
        (((fun r => decide (cidKey r = some (Val.str cid))) ∘
          (fun r => setCell r "ugc" (some (Val.bool (to_bool (getCell r "ugc")))))) ∘
          (fun r => setCell r "channel_id" (some (Val.str (cellToStr (getCell r "channel_id")))))) r =
        (fun r => decide (cellToStr (getCell r "channel_id") = cid)) r := by
      intro r
      simp only [Function.comp_apply]
      unfold cidKey
      apply decide_eq_decide.mpr
      rw [getCell_setCell_ne _ "ugc" "channel_id" _ (by decide), getCell_setCell_self]
      constructor
      · intro h
        exact Val.str.inj (Option.some.inj h)
      · intro h
        rw [h]
    rw [List.filter_congr (fun r _ => hpred r)]
    rw [← annEntriesFor_eq_filter, hent₁]
    show [_] = _
    rw [hfix]
  -- step 3: the second upsert
  obtain ⟨s₂, hso₂, hst₂⟩ := upsert_ok_elim st₁ rows₂ d₂ st₂
    (by rw [hr₂]; exact List.cons_ne_nil _ _) hc₂ h2
  rw [hr₂] at hso₂
  have hmap₂ : ([a₂] : List Row).map (newAnnRow d₂) = [newAnnRow d₂ a₂] := rfl
  rw [hmap₂] at hso₂
  have hcomb₂ : ((load_channel_annotations st₁).rows ++ [newAnnRow d₂ a₂]).filter
      (fun r => decide (cidKey r = some (Val.str cid))) =
      [newAnnRow d₁ a₁, newAnnRow d₂ a₂] := by
    rw [List.filter_append, hL₁filter, List.filter_cons]
    rw [if_pos (by rw [hn₂]; simp [cidKey, getCell])]
    rfl
  have hlua₁ : luaKey (newAnnRow d₁ a₁) = d₁ := by
    rw [hn₁]
    rfl
  have hlua₂ : luaKey (newAnnRow d₂ a₂) = d₂ := by
    rw [hn₂]
    rfl
  have hfil₂ : s₂.filter (fun r => decide (cidKey r = some (Val.str cid))) =
      [newAnnRow d₁ a₁, newAnnRow d₂ a₂] :=
    filter_sorted_pair luaKey _ _ _ hso₂ hcomb₂
      (by rw [hlua₁, hlua₂]; exact hd)
      (by rw [hlua₁, hlua₂]; exact hdne)
  have hshape₂ : ∀ r ∈ (load_channel_annotations st₁).rows ++ [newAnnRow d₂ a₂],
      ∃ s, getCell r "channel_id" = some (Val.str s) := by
    intro r hr
    rcases List.mem_append.mp hr with hr' | hr'
    · exact load_ann_cid_shape st₁ r hr'
    · rcases List.mem_singleton.mp hr' with rfl
      exact ⟨cid, by rw [hn₂]; rfl⟩
  have hshape₂' : ∀ r ∈ s₂, ∃ s, getCell r "channel_id" = some (Val.str s) :=
    fun r hr => hshape₂ r (hso₂.1.mem_iff.mpr hr)
  have hent₂ : annEntriesFor
      (⟨unionCols (load_channel_annotations st₁).cols annCols,
        dedupeKeepLast cidKey s₂⟩ : DF) cid = [newAnnRow d₂ a₂] := by
    rw [annEntries_upsert_result cid _ _ hshape₂', hfil₂]
    rfl
  refine ⟨_, hst₂, ?_, ?_⟩
  · rw [hent₂]
    rfl
  · intro e he
    rw [hent₂] at he
    rcases List.mem_singleton.mp he with rfl
    refine ⟨?_, ?_, ?_⟩
    · rw [hn₂]
      simp [getCell]
    · rw [hn₂]
      simp [getCell]
    · rw [hn₂]
      simp [getCell]

/-- C6 counterexample (equal dates): upserting `(c1, ugc=True)` and then, on
the SAME date, `(c1, ugc=False)` does not guarantee a `ugc = False` result.
pandas' default `sort_values` quicksort is documented as not stable, so the
execution that orders the freshly stamped equal-key row before the stored one
is admissible — and under it the keep-last dedup keeps the FIRST call's row:
the surviving entry for `c1` still has `ugc = True`. -/
theorem annotation_upsert_last_write_wins_cex :
    upsert_channel_annotations none c6Rows1 "2025-01-01" (.ok c6St1) ∧
    upsert_channel_annotations c6St1 c6Rows2 "2025-01-01" (.ok c6CexSt2) ∧
    ∃ df, c6CexSt2 = some df ∧ (annEntriesFor df "c1").length = 1 ∧
      ∀ e ∈ annEntriesFor df "c1", getCell e "ugc" = some (Val.bool true) := by
  refine ⟨?_, ?_, ?_⟩
  · exact (show upsertStableRun none c6Rows1 "2025-01-01" = .ok c6St1 from rfl) ▸
      upsertStableRun_sound none c6Rows1 "2025-01-01"
  · unfold upsert_channel_annotations
    rw [if_neg (by decide), if_pos (by decide)]
    exact ⟨c6CexSorted, ⟨List.perm_append_comm, by decide⟩, rfl⟩
  · exact ⟨_, rfl, by decide, by decide⟩

/-- C6 witness: upserting channel `c1` as UGC on 2025-01-01 and then, on the
strictly later date 2025-01-02, as non-UGC leaves exactly one entry with
`ugc = False` and both date stamps from the second call. -/
theorem annotation_upsert_last_write_wins_witness :
    ∃ df₂, c6St2 = some df₂ ∧
      (annEntriesFor df₂ "c1").length = 1 ∧
      ∀ e ∈ annEntriesFor df₂ "c1",
        getCell e "ugc" = some (Val.bool false) ∧
        getCell e "first_marked_at" = some (Val.str "2025-01-02") ∧
        getCell e "last_updated_at" = some (Val.str "2025-01-02") :=
  annotation_upsert_last_write_wins none "c1" c6Rows1 c6Rows2
    [("channel_id", some (Val.str "c1")), ("channel_title", some (Val.str "T")),
      ("ugc", some (Val.bool true))]
    [("channel_id", some (Val.str "c1")), ("channel_title", some (Val.str "T")),
      ("ugc", some (Val.bool false))]
    "2025-01-01" "2025-01-02" c6St1 c6St2
    rfl (by decide) rfl rfl rfl (by decide) rfl rfl (by decide) (by decide) rfl
    ((show upsertStableRun none c6Rows1 "2025-01-01" = .ok c6St1 from rfl) ▸
      upsertStableRun_sound none c6Rows1 "2025-01-01")
    ((show upsertStableRun c6St1 c6Rows2 "2025-01-02" = .ok c6St2 from rfl) ▸
      upsertStableRun_sound c6St1 c6Rows2 "2025-01-02")

/-! ## UGC share (C8) -/

theorem dedupeKeepLast_eq_self {α κ : Type} [DecidableEq κ] (keyf : α → κ)
    (l : List α) (h : (l.map keyf).Nodup) : dedupeKeepLast keyf l = l := by
  induction l with
  | nil => rfl
  | cons r rs ih =>
    simp only [List.map_cons, List.nodup_cons] at h
    have hany : rs.any (fun r2 => decide (keyf r2 = keyf r)) = false := by
      rw [List.any_eq_false]
      intro x hx
      simp only [decide_eq_true_eq]
      intro he
      exact h.1 (he ▸ List.mem_map_of_mem keyf hx)
    simp only [dedupeKeepLast, hany, Bool.false_eq_true, if_false]
    rw [ih h.2]

theorem filter_eq_find_of_nodup {α κ : Type} [DecidableEq κ] (keyf : α → κ) (k : κ)
    (p : α → Bool) (hp : ∀ a, p a = decide (keyf a = k))
    (l : List α) (h : (l.map keyf).Nodup) :
    l.filter p = (l.find? p).toList := by
  induction l with
  | nil => rfl
  | cons r rs ih =>
    simp only [List.map_cons, List.nodup_cons] at h
    by_cases hr : keyf r = k
    · have hd : p r = true := by rw [hp]; simp [hr]
      have hnil : rs.filter p = [] := by
        rw [List.filter_eq_nil_iff]
        intro x hx
        rw [hp x]
        simp only [decide_eq_true_eq]
        intro he
        exact h.1 (by rw [hr, ← he]; exact List.mem_map_of_mem keyf hx)
      rw [List.filter_cons_of_pos hd, List.find?_cons_of_pos _ hd, hnil]
      rfl
    · have hd : p r = false := by rw [hp]; simp [hr]
      rw [List.filter_cons_of_neg (by simp [hd]), List.find?_cons_of_neg _ (by simp [hd])]
      exact ih h.2

theorem flatMap_map_eq_map {α β γ : Type} (f : α → β) (g : β → List γ) (h : α → γ)
    (l : List α) (H : ∀ a ∈ l, g (f a) = [h a]) :
    (l.map f).flatMap g = l.map h := by
  induction l with
  | nil => rfl
  | cons r rs ih =>
    simp only [List.map_cons, List.flatMap_cons]
    rw [H r (List.mem_cons_self r rs), ih (fun a ha => H a (List.mem_cons_of_mem r ha))]
    rfl

theorem annNorm_eq (ann0 : DF)
    (h : (ann0.rows.map (fun r => cellToStr (getCell r "channel_id"))).Nodup) :
    annNorm ann0 = ann0.rows.map (fun p =>
      setCell [("channel_id", getCell p "channel_id"), ("ugc", getCell p "ugc")]
        "channel_id" (some (Val.str (cellToStr (getCell p "channel_id"))))) := by
  have hraw : ((annProj ann0).map (fun r => getCell r "channel_id")).Nodup := by
    have h2 : (annProj ann0).map (fun r => getCell r "channel_id") =
        ann0.rows.map (fun p => getCell p "channel_id") := by
      unfold annProj
      rw [List.map_map]
      apply List.map_congr_left
      intro p _
      simp [Function.comp, getCell_cons]
    rw [h2]
    have h3 : ann0.rows.map (fun r => cellToStr (getCell r "channel_id")) =
        (ann0.rows.map (fun p => getCell p "channel_id")).map cellToStr := by
      rw [List.map_map]
      rfl
    rw [h3] at h
    exact h.of_map
  unfold annNorm
  rw [dedupeKeepLast_eq_self _ _ hraw]
  unfold annProj
  rw [List.map_map]
  apply List.map_congr_left
  intro p _
  simp [Function.comp, getCell_cons]

theorem leftJoinUgc_norm (ann0 : DF) (r₀ : Row)
    (h : (ann0.rows.map (fun r => cellToStr (getCell r "channel_id"))).Nodup) :
    leftJoinUgc (annNorm ann0)
        (setCell r₀ "channel_id" (some (Val.str (cellToStr (getCell r₀ "channel_id"))))) =
      [setCell (setCell r₀ "channel_id" (some (Val.str (cellToStr (getCell r₀ "channel_id")))))
        "ugc"
        (match ann0.rows.find? (fun a =>
            decide (cellToStr (getCell a "channel_id") = cellToStr (getCell r₀ "channel_id"))) with
          | some a => getCell a "ugc"
          | none => none)] := by
  have hms : (annNorm ann0).filter (fun a => decide (getCell a "channel_id" =
      getCell (setCell r₀ "channel_id"
        (some (Val.str (cellToStr (getCell r₀ "channel_id"))))) "channel_id")) =
      ((ann0.rows.find? (fun a =>
        decide (cellToStr (getCell a "channel_id") = cellToStr (getCell r₀ "channel_id")))).toList).map
        (fun p => setCell [("channel_id", getCell p "channel_id"), ("ugc", getCell p "ugc")]
          "channel_id" (some (Val.str (cellToStr (getCell p "channel_id"))))) := by
    rw [annNorm_eq ann0 h, getCell_setCell_self, List.filter_map]
    rw [List.filter_congr (fun p _ => ?_), filter_eq_find_of_nodup
      (fun p => cellToStr (getCell p "channel_id")) (cellToStr (getCell r₀ "channel_id"))
      _ (fun a => rfl) ann0.rows h]
    simp only [Function.comp]
    rw [getCell_setCell_self]
    apply decide_eq_decide.mpr
    simp
  unfold leftJoinUgc
  rw [hms]
  cases hf : ann0.rows.find? (fun a =>
      decide (cellToStr (getCell a "channel_id") = cellToStr (getCell r₀ "channel_id"))) with
  | none => rfl
  | some a =>
    have hg : getCell (setCell [("channel_id", getCell a "channel_id"), ("ugc", getCell a "ugc")]
        "channel_id" (some (Val.str (cellToStr (getCell a "channel_id"))))) "ugc" =
        getCell a "ugc" := by
      rw [getCell_setCell_ne _ _ _ _ (by decide)]
      simp [getCell_cons]
    simp only [Option.toList, List.map_cons, List.map_nil, List.isEmpty_cons,
      Bool.false_eq_true, if_false, hg]

theorem joinedRows_cells (chan ann0 : DF)
    (h : (ann0.rows.map (fun r => cellToStr (getCell r "channel_id"))).Nodup) :
    ∃ g : Row → Row, joinedRows chan ann0 = chan.rows.map g ∧
      ∀ r₀ : Row, getCell (g r₀) "total_views" = getCell r₀ "total_views" ∧
        getCell (g r₀) "ugc" = some (Val.bool (ugcFlagFor ann0 r₀)) := by
  have h1 : joinedRows chan ann0 = chan.rows.map (fun r₀ =>
      setCell (setCell (setCell r₀ "channel_id"
          (some (Val.str (cellToStr (getCell r₀ "channel_id")))))
        "ugc"
        (match ann0.rows.find? (fun a =>
            decide (cellToStr (getCell a "channel_id") = cellToStr (getCell r₀ "channel_id"))) with
          | some a => getCell a "ugc"
          | none => none))
        "ugc"
        (some (Val.bool (cellPyBool (match ann0.rows.find? (fun a =>
            decide (cellToStr (getCell a "channel_id") = cellToStr (getCell r₀ "channel_id"))) with
          | some a => getCell a "ugc"
          | none => none))))) := by
    unfold joinedRows chanNorm
    rw [flatMap_map_eq_map _ _ (fun r₀ =>
        setCell (setCell r₀ "channel_id"
            (some (Val.str (cellToStr (getCell r₀ "channel_id")))))
          "ugc"
          (match ann0.rows.find? (fun a =>
              decide (cellToStr (getCell a "channel_id") = cellToStr (getCell r₀ "channel_id"))) with
            | some a => getCell a "ugc"
            | none => none))
      chan.rows (fun a _ => leftJoinUgc_norm ann0 a h), List.map_map]
    apply List.map_congr_left
    intro r₀ _
    simp only [Function.comp]
    rw [getCell_setCell_self]
  have h2 : ∀ r₀ : Row,
      getCell (setCell (setCell (setCell r₀ "channel_id"
          (some (Val.str (cellToStr (getCell r₀ "channel_id")))))
        "ugc"
        (match ann0.rows.find? (fun a =>
            decide (cellToStr (getCell a "channel_id") = cellToStr (getCell r₀ "channel_id"))) with
          | some a => getCell a "ugc"
          | none => none))
        "ugc"
        (some (Val.bool (cellPyBool (match ann0.rows.find? (fun a =>
            decide (cellToStr (getCell a "channel_id") = cellToStr (getCell r₀ "channel_id"))) with
          | some a => getCell a "ugc"
          | none => none))))) "total_views" = getCell r₀ "total_views" ∧
      getCell (setCell (setCell (setCell r₀ "channel_id"
          (some (Val.str (cellToStr (getCell r₀ "channel_id")))))
        "ugc"
        (match ann0.rows.find? (fun a =>
            decide (cellToStr (getCell a "channel_id") = cellToStr (getCell r₀ "channel_id"))) with
          | some a => getCell a "ugc"
          | none => none))
        "ugc"
        (some (Val.bool (cellPyBool (match ann0.rows.find? (fun a =>
            decide (cellToStr (getCell a "channel_id") = cellToStr (getCell r₀ "channel_id"))) with
          | some a => getCell a "ugc"
          | none => none))))) "ugc" = some (Val.bool (ugcFlagFor ann0 r₀)) := by
    intro r₀
    constructor
    · rw [getCell_setCell_ne _ "ugc" "total_views" _ (by decide),
        getCell_setCell_ne _ "ugc" "total_views" _ (by decide),
        getCell_setCell_ne _ "channel_id" "total_views" _ (by decide)]
    · rw [getCell_setCell_self]
      unfold ugcFlagFor
      cases hf : ann0.rows.find? (fun a =>
          decide (cellToStr (getCell a "channel_id") = cellToStr (getCell r₀ "channel_id"))) with
      | none => rfl
      | some a => rfl
  exact ⟨_, h1, h2⟩

/-- C8 (amended): for a non-empty channel-aggregate frame and a non-empty
annotation store that carry the required `channel_id`/`ugc` columns, with the
store's string-normalized channel ids pairwise distinct, the UGC percentage is
`100 * sum(total_views of channels flagged ugc) / sum(total_views)` — flags
looked up by string-normalized `channel_id`, unmatched or missing channels
counting as non-UGC — and `0.0` when the total view count is non-positive.
(The unamended claim's "every channel-aggregate set and annotation store" is
refuted by `ugc_share_formula_cex`: an empty aggregate frame has total views
`0 ≤ 0` yet the function returns `None`, not `0.0`.) -/
theorem ugc_share_formula (chan ann0 : DF)
    (h₁ : chan.rows ≠ []) (h₂ : ann0.rows ≠ [])
    (h₃ : "channel_id" ∈ chan.cols) (h₄ : "channel_id" ∈ ann0.cols)
    (h₅ : "ugc" ∈ ann0.cols) (h₆ : "ugc" ∉ chan.cols)
    (h₇ : (ann0.rows.map (fun r => cellToStr (getCell r "channel_id"))).Nodup) :
    compute_ugc_from_channels (some chan) (some ann0) =
      some (if totalViewsOf chan ≤ 0 then 0
        else (ugcViewsOf ann0 chan : ℚ) / (totalViewsOf chan : ℚ) * 100) := by
  obtain ⟨g, hg, hcells⟩ := joinedRows_cells chan ann0 h₇
  have hT : ((joinedRows chan ann0).map (fun r => cellInt (getCell r "total_views"))).sum =
      totalViewsOf chan := by
    rw [hg, List.map_map]
    unfold totalViewsOf
    apply congrArg List.sum
    apply List.map_congr_left
    intro r₀ _
    simp only [Function.comp]
    rw [(hcells r₀).1]
  have hU : (((joinedRows chan ann0).filter
      (fun r => decide (getCell r "ugc" = some (Val.bool true)))).map
      (fun r => cellInt (getCell r "total_views"))).sum = ugcViewsOf ann0 chan := by
    rw [hg, List.filter_map]
    have hpred : ∀ r₀ ∈ chan.rows,
        ((fun r => decide (getCell r "ugc" = some (Val.bool true))) ∘ g) r₀ =
          ugcFlagFor ann0 r₀ := by
      intro r₀ _
      simp only [Function.comp]
      cases hfl : ugcFlagFor ann0 r₀ with
      | true => exact decide_eq_true (by rw [(hcells r₀).2, hfl])
      | false =>
        apply decide_eq_false
        intro hP
        rw [(hcells r₀).2, hfl] at hP
        simp at hP
    rw [List.filter_congr hpred, List.map_map]
    unfold ugcViewsOf
    apply congrArg List.sum
    apply List.map_congr_left
    intro r₀ _
    simp only [Function.comp]
    rw [(hcells r₀).1]
  show compute_ugc_core chan ann0 = _
  unfold compute_ugc_core
  rw [if_neg (by simp [h₁]), if_neg (by simp [h₂]), if_pos ⟨h₃, h₄, h₅⟩]
  simp only [hT, hU]
  by_cases hc : totalViewsOf chan ≤ 0
  · rw [if_pos hc, if_pos hc]
  · rw [if_neg hc, if_neg hc]

/-- C8 counterexample: on an empty aggregate frame the total view count is
zero (non-positive), so the claim mandates a `0.0` share, but
`compute_ugc_from_channels` returns `None`. -/
theorem ugc_share_formula_cex :
    totalViewsOf c8EmptyChan ≤ 0 ∧
    compute_ugc_from_channels (some c8EmptyChan) (some c8Ann) = none ∧
    (none : Option ℚ) ≠ some 0 :=
  ⟨by decide, rfl, by decide⟩

/-- C8 witness: channels `c1` (70 views) and `c2` (30 views, flagged UGC)
give a 30% UGC share by the amended formula. -/
theorem ugc_share_formula_witness :
    compute_ugc_from_channels (some c8Chan) (some c8Ann) =
      some (if totalViewsOf c8Chan ≤ 0 then 0
        else (ugcViewsOf c8Ann c8Chan : ℚ) / (totalViewsOf c8Chan : ℚ) * 100) ∧
    totalViewsOf c8Chan = 100 ∧ ugcViewsOf c8Ann c8Chan = 30 :=
  ⟨ugc_share_formula c8Chan c8Ann (by decide) (by decide) (by decide) (by decide)
    (by decide) (by decide) (by decide), by decide, by decide⟩
